import Mathlib

/-!
Qt Charts: abstract series and the date-time Y axis layout.

A shallow embedding of `src/charts/qabstractseries.cpp` (the property setters,
the OpenGL gate, axis attachment and the destructor of `QAbstractSeries`) and of
`ChartDateTimeAxisY::calculateLayout` and `ChartDateTimeAxisY::sizeHint` from
`src/axis/datetimeaxis/chartdatetimeaxisy.cpp`.

Conventions of the embedding.

* Objects reached through pointers are records; a pointer that may be null is an
  `Option`.
* A member function that mutates the object returns the new object. Signals it
  emits are returned next to it, oldest first; `qWarning` lines likewise.
* `qreal` is `double`. Where the source computes with it (the tick layout and the
  size hint) it is an IEEE 754 double, `Double`, and every operation rounds to the
  nearest double. The opacity of a series is only stored and compared, never
  computed with, and is held as the rational number it denotes.
* `qFatal` and a failing `Q_ASSERT` end the computation with an error value;
  `Q_ASSERT` does so only in a build without `QT_NO_DEBUG`.
-/

namespace QtCharts

/-! ## Data model -/

/-- The enum `QAbstractSeries::SeriesType`, in the order of its documentation. -/
inductive SeriesType where
  | SeriesTypeLine
  | SeriesTypeArea
  | SeriesTypeBar
  | SeriesTypeStackedBar
  | SeriesTypePercentBar
  | SeriesTypePie
  | SeriesTypeScatter
  | SeriesTypeSpline
  | SeriesTypeHorizontalBar
  | SeriesTypeHorizontalStackedBar
  | SeriesTypeHorizontalPercentBar
  | SeriesTypeBoxPlot
  deriving DecidableEq, Repr

/-- The enum `QChart::ChartType`. -/
inductive ChartType where
  | ChartTypeUndefined
  | ChartTypeCartesian
  | ChartTypePolar
  deriving DecidableEq, Repr

/-- The part of a `QChart` that the series code reads: an identity standing for
the address of the object, and the result of `chartType()`. -/
structure QChart where
  addr : Nat
  chartType : ChartType
  deriving DecidableEq, Repr

/-- A `QAbstractAxis*`: the address of the axis object, `none` for a null pointer. -/
abbrev QAbstractAxisPtr := Option Nat

/-- The signals declared by `QAbstractSeries`. -/
inductive Signal where
  | nameChanged
  | visibleChanged
  | opacityChanged
  | useOpenGLChanged
  deriving DecidableEq, Repr

/-- The members of `QAbstractSeriesPrivate` that `qabstractseries.cpp` initialises
or assigns. `m_item` and `m_domain` are kept as addresses (`m_domain` holds the
address of the domain object the constructor allocates). -/
structure QAbstractSeriesPrivate where
  m_chart : Option QChart
  m_item : Option Nat
  m_domain : Nat
  m_axes : List QAbstractAxisPtr
  m_name : String
  m_visible : Bool
  m_opacity : ℚ
  m_useOpenGL : Bool
  m_blockOpenGL : Bool
  deriving DecidableEq, Repr

/-- A `QAbstractSeries` object: the value its virtual `type()` returns, and the
private data behind `d_ptr`. -/
structure QAbstractSeries where
  type : SeriesType
  d_ptr : QAbstractSeriesPrivate
  deriving DecidableEq, Repr

/-- The constructor `QAbstractSeriesPrivate::QAbstractSeriesPrivate`. The string
and the list are default-constructed, hence empty. `domain` is the address of the
freshly allocated `XYDomain`. -/
def QAbstractSeriesPrivate.new (domain : Nat) : QAbstractSeriesPrivate :=
  { m_chart := none
    m_item := none
    m_domain := domain
    m_axes := []
    m_name := ""
    m_visible := true
    m_opacity := 1
    m_useOpenGL := false
    m_blockOpenGL := false }

/-- The constructor `QAbstractSeries::QAbstractSeries` applied to fresh private
data, for a concrete subclass whose `type()` is `t`. -/
def QAbstractSeries.new (t : SeriesType) (domain : Nat) : QAbstractSeries :=
  { type := t, d_ptr := QAbstractSeriesPrivate.new domain }

/-! ## Destructor -/

/-- The destructor `QAbstractSeries::~QAbstractSeries`: `qFatal` when `m_chart` is
not null. -/
def QAbstractSeries.destroy (s : QAbstractSeries) : Except String Unit :=
  if s.d_ptr.m_chart.isSome then
    Except.error "Series still bound to a chart when destroyed!"
  else
    Except.ok ()

/-! ## Property accessors -/

/-- The function `QAbstractSeries::setName`. -/
def QAbstractSeries.setName (s : QAbstractSeries) (name : String) :
    QAbstractSeries × List Signal :=
  if name != s.d_ptr.m_name then
    ({ s with d_ptr := { s.d_ptr with m_name := name } }, [Signal.nameChanged])
  else
    (s, [])

/-- The function `QAbstractSeries::name`. -/
def QAbstractSeries.name (s : QAbstractSeries) : String :=
  s.d_ptr.m_name

/-- The function `QAbstractSeries::setVisible`. -/
def QAbstractSeries.setVisible (s : QAbstractSeries) (visible : Bool) :
    QAbstractSeries × List Signal :=
  if visible != s.d_ptr.m_visible then
    ({ s with d_ptr := { s.d_ptr with m_visible := visible } }, [Signal.visibleChanged])
  else
    (s, [])

/-- The function `QAbstractSeries::isVisible`. -/
def QAbstractSeries.isVisible (s : QAbstractSeries) : Bool :=
  s.d_ptr.m_visible

/-- The function `QAbstractSeries::opacity`. -/
def QAbstractSeries.opacity (s : QAbstractSeries) : ℚ :=
  s.d_ptr.m_opacity

/-- The function `QAbstractSeries::setOpacity`. -/
def QAbstractSeries.setOpacity (s : QAbstractSeries) (opacity : ℚ) :
    QAbstractSeries × List Signal :=
  if opacity != s.d_ptr.m_opacity then
    ({ s with d_ptr := { s.d_ptr with m_opacity := opacity } }, [Signal.opacityChanged])
  else
    (s, [])

/-- The function `QAbstractSeries::setUseOpenGL`. The flag `qtNoOpenGL` is the
preprocessor symbol `QT_NO_OPENGL`: when it is defined the body is empty. -/
def QAbstractSeries.setUseOpenGL (qtNoOpenGL : Bool) (s : QAbstractSeries) (enable : Bool) :
    QAbstractSeries × List Signal :=
  if qtNoOpenGL then
    (s, [])
  else
    let polarChart : Bool :=
      match s.d_ptr.m_chart with
      | none => false
      | some c => c.chartType == ChartType.ChartTypePolar
    let supportedSeries : Bool :=
      s.type == SeriesType.SeriesTypeLine || s.type == SeriesType.SeriesTypeScatter
    if (!enable || !s.d_ptr.m_blockOpenGL)
        && supportedSeries
        && enable != s.d_ptr.m_useOpenGL
        && (!enable || !polarChart) then
      ({ s with d_ptr := { s.d_ptr with m_useOpenGL := enable } }, [Signal.useOpenGLChanged])
    else
      (s, [])

/-- The function `QAbstractSeries::useOpenGL`. -/
def QAbstractSeries.useOpenGL (s : QAbstractSeries) : Bool :=
  s.d_ptr.m_useOpenGL

/-- The function `QAbstractSeries::chart`. -/
def QAbstractSeries.chart (s : QAbstractSeries) : Option QChart :=
  s.d_ptr.m_chart

/-- The function `QAbstractSeries::show`. -/
def QAbstractSeries.show (s : QAbstractSeries) : QAbstractSeries × List Signal :=
  s.setVisible true

/-- The function `QAbstractSeries::hide`. -/
def QAbstractSeries.hide (s : QAbstractSeries) : QAbstractSeries × List Signal :=
  s.setVisible false

/-- The function `QAbstractSeries::attachedAxes`. -/
def QAbstractSeries.attachedAxes (s : QAbstractSeries) : List QAbstractAxisPtr :=
  s.d_ptr.m_axes

/-- The function `QAbstractSeriesPrivate::setBlockOpenGL`, which stores the flag and,
when blocking, calls `setUseOpenGL(false)` on the public object. -/
def QAbstractSeries.setBlockOpenGL (qtNoOpenGL : Bool) (s : QAbstractSeries) (enable : Bool) :
    QAbstractSeries × List Signal :=
  let s1 : QAbstractSeries := { s with d_ptr := { s.d_ptr with m_blockOpenGL := enable } }
  if enable then
    QAbstractSeries.setUseOpenGL qtNoOpenGL s1 false
  else
    (s1, [])

/-! ## Axis attachment -/

/-- What a call of `attachAxis` or `detachAxis` leaves behind: the returned
boolean, the series afterwards, and the lines written through `qWarning`. -/
structure AxisCallResult where
  ret : Bool
  series : QAbstractSeries
  warnings : List String
  deriving DecidableEq, Repr

/-- The two `ChartDataSet` member functions that the series forwards to. Their
bodies live in `chartdataset.cpp`, outside the files at hand, so they are taken as
parameters. -/
structure ChartDataSet where
  attachAxis : QAbstractSeries → QAbstractAxisPtr → AxisCallResult
  detachAxis : QAbstractSeries → QAbstractAxisPtr → AxisCallResult

/-- The function `QAbstractSeries::attachAxis`; `datasetOf c` is the object behind
`c->d_ptr->m_dataset`. -/
def QAbstractSeries.attachAxis (datasetOf : QChart → ChartDataSet) (s : QAbstractSeries)
    (axis : QAbstractAxisPtr) : AxisCallResult :=
  match s.d_ptr.m_chart with
  | some c => (datasetOf c).attachAxis s axis
  | none =>
    { ret := false
      series := s
      warnings := ["Series not in the chart. Please addSeries to chart first."] }

/-- The function `QAbstractSeries::detachAxis`. -/
def QAbstractSeries.detachAxis (datasetOf : QChart → ChartDataSet) (s : QAbstractSeries)
    (axis : QAbstractAxisPtr) : AxisCallResult :=
  match s.d_ptr.m_chart with
  | some c => (datasetOf c).detachAxis s axis
  | none =>
    { ret := false
      series := s
      warnings := ["Series not in the chart. Please addSeries to chart first."] }

/-! ## Sequences of OpenGL calls -/

/-- One call of either of the two functions that write the OpenGL members. -/
inductive OpenGLCall where
  | setUseOpenGL (enable : Bool)
  | setBlockOpenGL (enable : Bool)
  deriving DecidableEq, Repr

/-- Perform one call. -/
def OpenGLCall.perform (qtNoOpenGL : Bool) (s : QAbstractSeries) :
    OpenGLCall → QAbstractSeries × List Signal
  | OpenGLCall.setUseOpenGL enable => QAbstractSeries.setUseOpenGL qtNoOpenGL s enable
  | OpenGLCall.setBlockOpenGL enable => QAbstractSeries.setBlockOpenGL qtNoOpenGL s enable

/-- Perform the calls from left to right, collecting every emitted signal. -/
def runCalls (qtNoOpenGL : Bool) : QAbstractSeries → List OpenGLCall →
    QAbstractSeries × List Signal
  | s, [] => (s, [])
  | s, c :: cs =>
    let r := c.perform qtNoOpenGL s
    let rest := runCalls qtNoOpenGL r.1 cs
    (rest.1, r.2 ++ rest.2)

/-! ## IEEE 754 double precision

The arithmetic of `qreal`, which is `double`. A finite double is held as the
rational it denotes; every operation computes the exact result and rounds it to
the nearest double, ties to the even significand, as IEEE 754 prescribes in its
default rounding mode. Each operation is rounded on its own: the product and the
sum of `qreal(i) * -deltaY + bottom` are two roundings, not one fused
multiply-add. The sign of a zero is not kept: in the code modelled here it could
only show in the sign of a quotient by zero, and the one divisor that can be zero,
`qreal(tickCount) - 1.0` for a tick count of one, is the positive zero. -/

/-- Round a rational to the nearest integer, a tie going to the even neighbour. -/
def roundHalfEven (q : ℚ) : Int :=
  let f : Int := ⌊q⌋
  if q - f < 1 / 2 then f
  else if 1 / 2 < q - f then f + 1
  else if f % 2 = 0 then f else f + 1

/-- The exponent of the last place of the doubles around `x`: 52 below the binary
exponent of `|x|`, and -1074 throughout the subnormal range. -/
def ulpExponent (x : ℚ) : Int := max (Int.log 2 |x| - 52) (-1074)

/-- Round a non-negative rational to a multiple of its last place. -/
def roundMagnitude (x : ℚ) : ℚ :=
  (roundHalfEven (x / 2 ^ ulpExponent x) : ℚ) * 2 ^ ulpExponent x

/-- Round a rational to the nearest double, the exponent range taken as unbounded
above. -/
def roundQ (x : ℚ) : ℚ :=
  if x < 0 then -roundMagnitude (-x) else roundMagnitude x

/-- A `double`: a finite value, an infinity with its sign, or a NaN. -/
inductive Double where
  | finite (v : ℚ)
  | infinite (negative : Bool)
  | nan
  deriving DecidableEq, Repr

/-- The double nearest to a rational; the result overflows to an infinity when the
rounded magnitude reaches `2 ^ 1024`. -/
def Double.round (x : ℚ) : Double :=
  if 2 ^ 1024 ≤ |roundQ x| then Double.infinite (decide (x < 0)) else Double.finite (roundQ x)

/-- Whether a value is a finite double. -/
def Double.isFinite : Double → Bool
  | Double.finite v => decide (Double.round v = Double.finite v)
  | _ => false

/-- The conversion of an `int` to `double`. -/
def Double.ofInt (n : Int) : Double := Double.round (n : ℚ)

/-- Unary minus. -/
def Double.neg : Double → Double
  | Double.finite v => Double.finite (-v)
  | Double.infinite s => Double.infinite (!s)
  | Double.nan => Double.nan

/-- Addition. -/
def Double.add : Double → Double → Double
  | Double.finite a, Double.finite b => Double.round (a + b)
  | Double.finite _, Double.infinite s => Double.infinite s
  | Double.infinite s, Double.finite _ => Double.infinite s
  | Double.infinite s, Double.infinite t => if s = t then Double.infinite s else Double.nan
  | Double.nan, _ => Double.nan
  | _, Double.nan => Double.nan

/-- Subtraction. -/
def Double.sub (a b : Double) : Double := Double.add a (Double.neg b)

/-- Multiplication. -/
def Double.mul : Double → Double → Double
  | Double.finite a, Double.finite b => Double.round (a * b)
  | Double.finite a, Double.infinite s =>
    if a = 0 then Double.nan else Double.infinite (xor s (decide (a < 0)))
  | Double.infinite s, Double.finite b =>
    if b = 0 then Double.nan else Double.infinite (xor s (decide (b < 0)))
  | Double.infinite s, Double.infinite t => Double.infinite (xor s t)
  | Double.nan, _ => Double.nan
  | _, Double.nan => Double.nan

/-- Division; a zero divisor counts as the positive zero. -/
def Double.div : Double → Double → Double
  | Double.finite a, Double.finite b =>
    if b = 0 then
      if a = 0 then Double.nan else Double.infinite (decide (a < 0))
    else Double.round (a / b)
  | Double.finite _, Double.infinite _ => Double.finite 0
  | Double.infinite s, Double.finite b => Double.infinite (xor s (decide (b < 0)))
  | Double.infinite _, Double.infinite _ => Double.nan
  | Double.nan, _ => Double.nan
  | _, Double.nan => Double.nan

/-- The comparison `a < b`, false as soon as one side is a NaN. -/
def Double.lt : Double → Double → Bool
  | Double.finite a, Double.finite b => decide (a < b)
  | Double.finite _, Double.infinite t => !t
  | Double.infinite s, Double.finite _ => s
  | Double.infinite s, Double.infinite t => s && !t
  | Double.nan, _ => false
  | _, Double.nan => false

/-- The comparison `a <= b`, false as soon as one side is a NaN. -/
def Double.le : Double → Double → Bool
  | Double.finite a, Double.finite b => decide (a ≤ b)
  | Double.finite _, Double.infinite t => !t
  | Double.infinite s, Double.finite _ => s
  | Double.infinite s, Double.infinite t => s || !t
  | Double.nan, _ => false
  | _, Double.nan => false

/-- A `QRectF`: top-left corner and size. -/
structure QRectF where
  xp : Double
  yp : Double
  w : Double
  h : Double
  deriving DecidableEq, Repr

/-- The function `QRectF::height`. -/
def QRectF.height (r : QRectF) : Double := r.h

/-- The function `QRectF::top`. -/
def QRectF.top (r : QRectF) : Double := r.yp

/-- The function `QRectF::bottom`, which returns `yp + h`. -/
def QRectF.bottom (r : QRectF) : Double := Double.add r.yp r.h

/-- Whether the four members of a rectangle are finite doubles. -/
def QRectF.isFinite (r : QRectF) : Bool :=
  r.xp.isFinite && r.yp.isFinite && r.w.isFinite && r.h.isFinite

/-- What `calculateLayout` reads from the axis element: `m_axis->tickCount()`, a C++
`int`, and `gridGeometry()`. -/
structure ChartDateTimeAxisY where
  tickCount : Int
  gridGeometry : QRectF
  deriving DecidableEq, Repr

/-- The loop `for (int i = 0; i < tickCount; ++i) points[i] = qreal(i) * -deltaY +
gridRect.bottom();` with `remaining = tickCount - i` iterations left to run. -/
def ChartDateTimeAxisY.fillPoints (deltaY bottom : Double) :
    Nat → Nat → List Double → List Double
  | 0, _, points => points
  | remaining + 1, i, points =>
    fillPoints deltaY bottom remaining (i + 1)
      (points.set i (Double.add (Double.mul (Double.ofInt i) (Double.neg deltaY)) bottom))

/-- The function `ChartDateTimeAxisY::calculateLayout`. The flag `qtNoDebug` is the
preprocessor symbol `QT_NO_DEBUG`: when it is defined `Q_ASSERT` expands to nothing,
otherwise a failing assertion ends the call. `points.resize(tickCount)` yields
`tickCount` zeros; resizing to a negative size is undefined and ends the call. -/
def ChartDateTimeAxisY.calculateLayout (qtNoDebug : Bool) (a : ChartDateTimeAxisY) :
    Except String (List Double) :=
  let tickCount : Int := a.tickCount
  if !qtNoDebug && decide (tickCount < 2) then
    Except.error "ASSERT: \"tickCount >= 2\""
  else if tickCount < 0 then
    Except.error "QVector::resize: negative size"
  else
    let points : List Double := List.replicate tickCount.toNat (Double.finite 0)
    let gridRect : QRectF := a.gridGeometry
    let deltaY : Double :=
      Double.div gridRect.height (Double.sub (Double.ofInt tickCount) (Double.finite 1))
    Except.ok (ChartDateTimeAxisY.fillPoints deltaY gridRect.bottom tickCount.toNat 0 points)

/-! ## Size hint of the date-time Y axis -/

/-- A `QSizeF`: its two members `wd` and `ht`. -/
structure QSizeF where
  wd : Double
  ht : Double
  deriving DecidableEq, Repr

/-- The default constructor `QSizeF()`, which gives the size -1 by -1. -/
def QSizeF.new : QSizeF := { wd := Double.finite (-1), ht := Double.finite (-1) }

/-- The function `QSizeF::height`. -/
def QSizeF.height (s : QSizeF) : Double := s.ht

/-- Call `setOpacity` with each argument from left to right, collecting every emitted
signal. -/
def runSetOpacity : QAbstractSeries → List ℚ → QAbstractSeries × List Signal
  | s, [] => (s, [])
  | s, x :: xs =>
    let r := s.setOpacity x
    let rest := runSetOpacity r.1 xs
    (rest.1, r.2 ++ rest.2)

/-! ## Sample objects -/

/-- A small data set for exercising the forwarding branch: attaching appends the
axis to `m_axes` unless it is null or already there, detaching erases it. -/
def exampleDataSet : ChartDataSet where
  attachAxis := fun s axis =>
    if axis.isNone || s.d_ptr.m_axes.contains axis then
      { ret := false, series := s, warnings := [] }
    else
      { ret := true
        series := { s with d_ptr := { s.d_ptr with m_axes := s.d_ptr.m_axes ++ [axis] } }
        warnings := [] }
  detachAxis := fun s axis =>
    if s.d_ptr.m_axes.contains axis then
      { ret := true
        series := { s with d_ptr := { s.d_ptr with m_axes := s.d_ptr.m_axes.erase axis } }
        warnings := [] }
    else
      { ret := false, series := s, warnings := [] }

/-- A line series that has been added to the polar chart at address 1. -/
def examplePolarLine : QAbstractSeries :=
  { type := SeriesType.SeriesTypeLine
    d_ptr := { QAbstractSeriesPrivate.new 0 with
      m_chart := some { addr := 1, chartType := ChartType.ChartTypePolar } } }

/-- With `QT_NO_OPENGL` defined, `setUseOpenGL` does nothing. -/
theorem setUseOpenGL_noOpenGL (s : QAbstractSeries) (enable : Bool) :
    QAbstractSeries.setUseOpenGL true s enable = (s, []) := by
  simp [QAbstractSeries.setUseOpenGL]

/-- On a series that is neither a line nor a scatter series, `setUseOpenGL` does
nothing. -/
theorem setUseOpenGL_unsupported (qtNoOpenGL : Bool) (s : QAbstractSeries) (enable : Bool)
    (hLine : s.type ≠ SeriesType.SeriesTypeLine)
    (hScatter : s.type ≠ SeriesType.SeriesTypeScatter) :
    QAbstractSeries.setUseOpenGL qtNoOpenGL s enable = (s, []) := by
  cases qtNoOpenGL <;> simp [QAbstractSeries.setUseOpenGL, hLine, hScatter]

/-- A call of `setUseOpenGL` either leaves the series alone and emits nothing, or
stores `enable` in `m_useOpenGL` and emits `useOpenGLChanged` once; the second
happens only if the stored value differed and, when enabling, only in a build with
OpenGL, on a line or scatter series that is not blocked. -/
theorem setUseOpenGL_cases (qtNoOpenGL : Bool) (s : QAbstractSeries) (enable : Bool) :
    QAbstractSeries.setUseOpenGL qtNoOpenGL s enable = (s, []) ∨
    (QAbstractSeries.setUseOpenGL qtNoOpenGL s enable =
        ({ s with d_ptr := { s.d_ptr with m_useOpenGL := enable } }, [Signal.useOpenGLChanged]) ∧
      enable ≠ s.d_ptr.m_useOpenGL ∧
      qtNoOpenGL = false ∧
      (s.type = SeriesType.SeriesTypeLine ∨ s.type = SeriesType.SeriesTypeScatter) ∧
      (enable = true → s.d_ptr.m_blockOpenGL = false)) := by
  unfold QAbstractSeries.setUseOpenGL
  cases qtNoOpenGL
  · simp only [Bool.false_eq_true, if_false]
    split
    · rename_i hcond
      right
      simp only [Bool.and_eq_true, Bool.or_eq_true, Bool.not_eq_true', bne_iff_ne, ne_eq,
        beq_iff_eq] at hcond
      obtain ⟨⟨⟨hblock, hsupp⟩, hne⟩, _⟩ := hcond
      refine ⟨rfl, hne, trivial, hsupp, ?_⟩
      intro he
      rcases hblock with h | h
      · rw [he] at h; exact absurd h (by decide)
      · exact h
    · left; rfl
  · left; rfl

/-- Blocking OpenGL on a series whose flag is set only where `setUseOpenGL` could
have set it turns the flag off and records the block. -/
theorem setBlockOpenGL_true_off (qtNoOpenGL : Bool) (s : QAbstractSeries)
    (hs : s.useOpenGL = true → qtNoOpenGL = false ∧
      (s.type = SeriesType.SeriesTypeLine ∨ s.type = SeriesType.SeriesTypeScatter)) :
    (QAbstractSeries.setBlockOpenGL qtNoOpenGL s true).1.useOpenGL = false ∧
    (QAbstractSeries.setBlockOpenGL qtNoOpenGL s true).1.d_ptr.m_blockOpenGL = true := by
  obtain ⟨t, ⟨ch, it, dom, ax, nm, vis, op, use, blk⟩⟩ := s
  cases use with
  | false =>
    cases qtNoOpenGL <;>
      simp [QAbstractSeries.setBlockOpenGL, QAbstractSeries.setUseOpenGL,
        QAbstractSeries.useOpenGL]
  | true =>
    obtain ⟨hgl, hsupp⟩ := hs rfl
    subst hgl
    have ht : t = SeriesType.SeriesTypeLine ∨ t = SeriesType.SeriesTypeScatter := hsupp
    rcases ht with ht | ht <;> subst ht <;>
      simp [QAbstractSeries.setBlockOpenGL, QAbstractSeries.setUseOpenGL,
        QAbstractSeries.useOpenGL]

/-- Every reachable combination of the OpenGL members: the flag is set only in a
build with OpenGL, on a line or scatter series, while OpenGL is not blocked. -/
theorem runCalls_consistent (qtNoOpenGL : Bool) (calls : List OpenGLCall) :
    ∀ s : QAbstractSeries,
      (s.useOpenGL = true → qtNoOpenGL = false ∧
        (s.type = SeriesType.SeriesTypeLine ∨ s.type = SeriesType.SeriesTypeScatter) ∧
        s.d_ptr.m_blockOpenGL = false) →
      ((runCalls qtNoOpenGL s calls).1.useOpenGL = true → qtNoOpenGL = false ∧
        ((runCalls qtNoOpenGL s calls).1.type = SeriesType.SeriesTypeLine ∨
          (runCalls qtNoOpenGL s calls).1.type = SeriesType.SeriesTypeScatter) ∧
        (runCalls qtNoOpenGL s calls).1.d_ptr.m_blockOpenGL = false) := by
  induction calls with
  | nil => intro s hs; exact hs
  | cons c cs ih =>
    intro s hs
    apply ih
    cases c with
    | setUseOpenGL enable =>
      rcases setUseOpenGL_cases qtNoOpenGL s enable with h | ⟨h, _, hgl, hsupp, hblock⟩
      · simp only [OpenGLCall.perform, h]; exact hs
      · simp only [OpenGLCall.perform, h, QAbstractSeries.useOpenGL]
        intro he
        exact ⟨hgl, hsupp, hblock he⟩
    | setBlockOpenGL enable =>
      cases enable with
      | false =>
        intro he
        have he2 : s.useOpenGL = true := he
        exact ⟨(hs he2).1, (hs he2).2.1, rfl⟩
      | true =>
        intro he
        have hoff := (setBlockOpenGL_true_off qtNoOpenGL s
          (fun h => ⟨(hs h).1, (hs h).2.1⟩)).1
        have he2 : (QAbstractSeries.setBlockOpenGL qtNoOpenGL s true).1.useOpenGL = true := he
        rw [hoff] at he2
        exact absurd he2 (by decide)

/-- While OpenGL is blocked and the flag is off, `setUseOpenGL` does nothing. -/
theorem setUseOpenGL_blocked (qtNoOpenGL : Bool) (s : QAbstractSeries) (enable : Bool)
    (hblock : s.d_ptr.m_blockOpenGL = true) (huse : s.d_ptr.m_useOpenGL = false) :
    QAbstractSeries.setUseOpenGL qtNoOpenGL s enable = (s, []) := by
  rcases setUseOpenGL_cases qtNoOpenGL s enable with h | ⟨_, hne, _, _, hb⟩
  · exact h
  · cases enable with
    | false => simp [huse] at hne
    | true => rw [hb rfl] at hblock; exact absurd hblock (by decide)

/-- After `setOpacity(x)` the getter returns `x`, whatever `x` is. -/
theorem setOpacity_opacity (s : QAbstractSeries) (x : ℚ) :
    (s.setOpacity x).1.opacity = x := by
  by_cases h : x = s.d_ptr.m_opacity
  · simp [QAbstractSeries.setOpacity, QAbstractSeries.opacity, h]
  · simp [QAbstractSeries.setOpacity, QAbstractSeries.opacity, h]

/-! ## Auxiliary facts: rounding -/

theorem roundHalfEven_intCast (n : Int) : roundHalfEven (n : ℚ) = n := by
  simp [roundHalfEven]

theorem roundHalfEven_le (q : ℚ) : (roundHalfEven q : ℚ) ≤ q + 1 / 2 := by
  have h1 := Int.floor_le q
  unfold roundHalfEven
  simp only []
  split_ifs with ha hb hc
  · linarith
  · push_cast; linarith [Int.lt_floor_add_one q]
  · linarith
  · push_cast; linarith

theorem le_roundHalfEven (q : ℚ) : q - 1 / 2 ≤ (roundHalfEven q : ℚ) := by
  have h1 := Int.lt_floor_add_one q
  unfold roundHalfEven
  simp only []
  split_ifs with ha hb hc
  · linarith
  · push_cast; linarith
  · linarith
  · push_cast; linarith

theorem roundHalfEven_mono {p q : ℚ} (h : p ≤ q) : roundHalfEven p ≤ roundHalfEven q := by
  have hmono : ⌊p⌋ ≤ ⌊q⌋ := Int.floor_mono h
  have hp1 := Int.floor_le p
  have hp2 := Int.lt_floor_add_one p
  have hq1 := Int.floor_le q
  have hq2 := Int.lt_floor_add_one q
  rcases (by omega : ⌊p⌋ = ⌊q⌋ ∨ ⌊p⌋ + 1 ≤ ⌊q⌋) with heq | hlt
  · have hc : ((⌊p⌋ : Int) : ℚ) = ((⌊q⌋ : Int) : ℚ) := by rw [heq]
    unfold roundHalfEven
    simp only []
    split_ifs <;> first | omega | (exfalso; linarith)
  · have hle1 : roundHalfEven p ≤ ⌊p⌋ + 1 := by
      unfold roundHalfEven; simp only []; split_ifs <;> omega
    have hle2 : ⌊q⌋ ≤ roundHalfEven q := by
      unfold roundHalfEven; simp only []; split_ifs <;> omega
    omega

theorem roundHalfEven_nonneg {q : ℚ} (h : 0 ≤ q) : 0 ≤ roundHalfEven q := by
  have := roundHalfEven_mono h
  rwa [show ((0 : ℚ)) = ((0 : Int) : ℚ) by simp, roundHalfEven_intCast] at this

theorem two_zpow_pos (e : Int) : (0 : ℚ) < 2 ^ e := zpow_pos (by norm_num) e

theorem ulpExponent_ge (x : ℚ) : -1074 ≤ ulpExponent x := le_max_right _ _

theorem ulpExponent_log (x : ℚ) : Int.log 2 |x| - 52 ≤ ulpExponent x := le_max_left _ _

theorem lt_zpow_ulpExponent {x : ℚ} (hx : 0 ≤ x) : x < 2 ^ (ulpExponent x + 53) := by
  have h1 : |x| < ((2 : ℕ) : ℚ) ^ (Int.log 2 |x| + 1) := Int.lt_zpow_succ_log_self (by norm_num) _
  rw [abs_of_nonneg hx] at h1
  have h2 : ((2 : ℕ) : ℚ) ^ (Int.log 2 x + 1) ≤ (2 : ℚ) ^ (ulpExponent x + 53) := by
    rw [Nat.cast_ofNat]
    apply zpow_le_zpow_right₀ (by norm_num)
    have := ulpExponent_log x
    rw [abs_of_nonneg hx] at this
    omega
  exact lt_of_lt_of_le h1 h2

theorem zpow_ulpExponent_le {x : ℚ} (hx : 0 < x) (he : -1074 < ulpExponent x) :
    (2 : ℚ) ^ (ulpExponent x + 52) ≤ x := by
  have h1 : ((2 : ℕ) : ℚ) ^ (Int.log 2 |x|) ≤ |x| := Int.zpow_log_le_self (by norm_num) (abs_pos.mpr hx.ne')
  rw [abs_of_pos hx, Nat.cast_ofNat] at h1
  have h2 : ulpExponent x = Int.log 2 x - 52 := by
    unfold ulpExponent at he ⊢
    rw [abs_of_pos hx] at he ⊢
    omega
  rw [h2]
  simpa using h1

theorem ulpExponent_mono {x y : ℚ} (hx : 0 < x) (hxy : x ≤ y) :
    ulpExponent x ≤ ulpExponent y := by
  unfold ulpExponent
  rw [abs_of_pos hx, abs_of_pos (lt_of_lt_of_le hx hxy)]
  have := Int.log_mono_right (b := 2) hx hxy
  omega

theorem roundMagnitude_zero : roundMagnitude 0 = 0 := by
  simp [roundMagnitude, roundHalfEven]

theorem roundMagnitude_nonneg {x : ℚ} (hx : 0 ≤ x) : 0 ≤ roundMagnitude x := by
  unfold roundMagnitude
  apply mul_nonneg
  · exact_mod_cast roundHalfEven_nonneg (div_nonneg hx (two_zpow_pos _).le)
  · exact (two_zpow_pos _).le

/-- the mantissa is at most 2^53 -/
theorem roundHalfEven_mantissa_le {x : ℚ} (hx : 0 ≤ x) :
    roundHalfEven (x / 2 ^ ulpExponent x) ≤ 2 ^ 53 := by
  have h1 : x / 2 ^ ulpExponent x ≤ ((2 ^ 53 : Int) : ℚ) := by
    rw [div_le_iff₀ (two_zpow_pos _)]
    have h2 := lt_zpow_ulpExponent hx
    rw [zpow_add₀ (by norm_num)] at h2
    push_cast
    have : (2 : ℚ) ^ (53 : Int) = 2 ^ 53 := by norm_cast
    rw [this] at h2
    linarith
  have := roundHalfEven_mono h1
  rwa [roundHalfEven_intCast] at this

theorem roundHalfEven_mantissa_ge {x : ℚ} (hx : 0 < x) (he : -1074 < ulpExponent x) :
    2 ^ 52 ≤ roundHalfEven (x / 2 ^ ulpExponent x) := by
  have h1 : ((2 ^ 52 : Int) : ℚ) ≤ x / 2 ^ ulpExponent x := by
    rw [le_div_iff₀ (two_zpow_pos _)]
    have h2 := zpow_ulpExponent_le hx he
    rw [zpow_add₀ (by norm_num)] at h2
    push_cast
    have : (2 : ℚ) ^ (52 : Int) = 2 ^ 52 := by norm_cast
    rw [this] at h2
    linarith
  have := roundHalfEven_mono h1
  rwa [roundHalfEven_intCast] at this

theorem roundMagnitude_mono {x y : ℚ} (hx : 0 ≤ x) (hxy : x ≤ y) :
    roundMagnitude x ≤ roundMagnitude y := by
  rcases eq_or_lt_of_le hx with h0 | hpos
  · rw [← h0, roundMagnitude_zero]
    exact roundMagnitude_nonneg (le_trans hx hxy)
  have hy : 0 < y := lt_of_lt_of_le hpos hxy
  have hE := ulpExponent_mono hpos hxy
  rcases eq_or_lt_of_le hE with heq | hlt
  · unfold roundMagnitude
    rw [← heq]
    apply mul_le_mul_of_nonneg_right _ (two_zpow_pos _).le
    exact_mod_cast roundHalfEven_mono (div_le_div_of_nonneg_right hxy (two_zpow_pos _).le)
  · have hyE : -1074 < ulpExponent y := lt_of_le_of_lt (ulpExponent_ge x) hlt
    have h1 : roundMagnitude x ≤ 2 ^ (ulpExponent x + 53) := by
      unfold roundMagnitude
      rw [zpow_add₀ (by norm_num), mul_comm ((2 : ℚ) ^ ulpExponent x)]
      apply mul_le_mul_of_nonneg_right _ (two_zpow_pos _).le
      have := roundHalfEven_mantissa_le hx
      have h53 : (2 : ℚ) ^ (53 : Int) = ((2 ^ 53 : Int) : ℚ) := by norm_cast
      rw [h53]
      exact_mod_cast this
    have h2 : (2 : ℚ) ^ (ulpExponent y + 52) ≤ roundMagnitude y := by
      unfold roundMagnitude
      rw [zpow_add₀ (by norm_num), mul_comm ((2 : ℚ) ^ ulpExponent y)]
      apply mul_le_mul_of_nonneg_right _ (two_zpow_pos _).le
      have := roundHalfEven_mantissa_ge hy hyE
      have h52 : (2 : ℚ) ^ (52 : Int) = ((2 ^ 52 : Int) : ℚ) := by norm_cast
      rw [h52]
      exact_mod_cast this
    have h3 : (2 : ℚ) ^ (ulpExponent x + 53) ≤ 2 ^ (ulpExponent y + 52) :=
      zpow_le_zpow_right₀ (by norm_num) (by omega)
    linarith

theorem roundMagnitude_of_repr (m e : Int) (hm0 : 0 < m) (hm : m < 2 ^ 53) (he : -1074 ≤ e) :
    roundMagnitude ((m : ℚ) * 2 ^ e) = (m : ℚ) * 2 ^ e := by
  have hmq : (0 : ℚ) < (m : ℚ) := by exact_mod_cast hm0
  have hx : (0 : ℚ) < (m : ℚ) * 2 ^ e := mul_pos hmq (two_zpow_pos e)
  have hlt : (m : ℚ) * 2 ^ e < ((2 : ℕ) : ℚ) ^ (e + 53) := by
    rw [Nat.cast_ofNat, zpow_add₀ (by norm_num), mul_comm ((2 : ℚ) ^ e)]
    apply mul_lt_mul_of_pos_right _ (two_zpow_pos e)
    have h53 : (2 : ℚ) ^ (53 : Int) = ((2 ^ 53 : Int) : ℚ) := by norm_cast
    rw [h53]
    exact_mod_cast hm
  have hlog : Int.log 2 ((m : ℚ) * 2 ^ e) < e + 53 :=
    (Int.lt_zpow_iff_log_lt (by norm_num) hx).mp hlt
  have hE : ulpExponent ((m : ℚ) * 2 ^ e) ≤ e := by
    unfold ulpExponent
    rw [abs_of_pos hx]
    exact max_le (by omega) he
  obtain ⟨k, hk⟩ : ∃ k : ℕ, e = ulpExponent ((m : ℚ) * 2 ^ e) + k :=
    ⟨(e - ulpExponent ((m : ℚ) * 2 ^ e)).toNat, by omega⟩
  have hdiv : (m : ℚ) * 2 ^ e / 2 ^ ulpExponent ((m : ℚ) * 2 ^ e) = ((m * 2 ^ k : Int) : ℚ) := by
    rw [div_eq_iff (two_zpow_pos _).ne']
    push_cast
    rw [mul_assoc, ← zpow_natCast, ← zpow_add₀ (by norm_num : (2 : ℚ) ≠ 0)]
    congr 2
    omega
  unfold roundMagnitude
  rw [hdiv, roundHalfEven_intCast, ← hdiv]
  exact div_mul_cancel₀ _ (two_zpow_pos _).ne'

theorem roundMagnitude_repr {x : ℚ} (hx : 0 ≤ x) :
    ∃ m e : Int, 0 ≤ m ∧ m < 2 ^ 53 ∧ -1074 ≤ e ∧ roundMagnitude x = (m : ℚ) * 2 ^ e := by
  have h1 := roundHalfEven_mantissa_le hx
  have h0 : 0 ≤ roundHalfEven (x / 2 ^ ulpExponent x) :=
    roundHalfEven_nonneg (div_nonneg hx (two_zpow_pos _).le)
  rcases eq_or_lt_of_le h1 with heq | hlt
  · refine ⟨2 ^ 52, ulpExponent x + 1, by norm_num, by norm_num, ?_, ?_⟩
    · have := ulpExponent_ge x; omega
    · unfold roundMagnitude
      rw [heq, zpow_add₀ (by norm_num)]
      push_cast
      ring
  · exact ⟨_, ulpExponent x, h0, hlt, ulpExponent_ge x, rfl⟩

theorem roundMagnitude_idem {x : ℚ} (hx : 0 ≤ x) :
    roundMagnitude (roundMagnitude x) = roundMagnitude x := by
  obtain ⟨m, e, hm0, hm, he, hr⟩ := roundMagnitude_repr hx
  rw [hr]
  rcases eq_or_lt_of_le hm0 with h0 | hpos
  · rw [← h0]; simp [roundMagnitude_zero]
  · exact roundMagnitude_of_repr m e hpos hm he

theorem roundQ_of_nonneg {x : ℚ} (hx : 0 ≤ x) : roundQ x = roundMagnitude x := by
  unfold roundQ
  rw [if_neg (not_lt.mpr hx)]

theorem roundQ_of_nonpos {x : ℚ} (hx : x ≤ 0) : roundQ x = -roundMagnitude (-x) := by
  unfold roundQ
  rcases eq_or_lt_of_le hx with h0 | hneg
  · rw [h0]; simp [roundMagnitude_zero]
  · rw [if_pos hneg]

theorem roundQ_zero : roundQ 0 = 0 := by
  rw [roundQ_of_nonneg le_rfl, roundMagnitude_zero]

theorem roundQ_neg (x : ℚ) : roundQ (-x) = -roundQ x := by
  rcases le_total 0 x with hx | hx
  · rw [roundQ_of_nonpos (neg_nonpos.mpr hx), neg_neg, roundQ_of_nonneg hx]
  · rw [roundQ_of_nonneg (neg_nonneg.mpr hx), roundQ_of_nonpos hx, neg_neg]

theorem roundQ_nonneg {x : ℚ} (hx : 0 ≤ x) : 0 ≤ roundQ x := by
  rw [roundQ_of_nonneg hx]; exact roundMagnitude_nonneg hx

theorem roundQ_nonpos {x : ℚ} (hx : x ≤ 0) : roundQ x ≤ 0 := by
  rw [roundQ_of_nonpos hx]
  exact neg_nonpos.mpr (roundMagnitude_nonneg (neg_nonneg.mpr hx))

theorem roundQ_mono {x y : ℚ} (hxy : x ≤ y) : roundQ x ≤ roundQ y := by
  rcases le_total 0 x with hx | hx
  · rw [roundQ_of_nonneg hx, roundQ_of_nonneg (le_trans hx hxy)]
    exact roundMagnitude_mono hx hxy
  · rcases le_total 0 y with hy | hy
    · exact le_trans (roundQ_nonpos hx) (roundQ_nonneg hy)
    · rw [roundQ_of_nonpos hx, roundQ_of_nonpos hy]
      exact neg_le_neg (roundMagnitude_mono (neg_nonneg.mpr hy) (neg_le_neg hxy))

theorem roundQ_idem (x : ℚ) : roundQ (roundQ x) = roundQ x := by
  rcases le_total 0 x with hx | hx
  · rw [roundQ_of_nonneg hx, roundQ_of_nonneg (roundMagnitude_nonneg hx), roundMagnitude_idem hx]
  · rw [roundQ_of_nonpos hx, roundQ_neg, roundQ_of_nonneg (roundMagnitude_nonneg (neg_nonneg.mpr hx)),
      roundMagnitude_idem (neg_nonneg.mpr hx)]

theorem roundQ_of_repr (m e : Int) (hm : |m| < 2 ^ 53) (he : -1074 ≤ e) :
    roundQ ((m : ℚ) * 2 ^ e) = (m : ℚ) * 2 ^ e := by
  rcases lt_trichotomy m 0 with hneg | h0 | hpos
  · have h1 : (m : ℚ) * 2 ^ e = -(((-m : Int) : ℚ) * 2 ^ e) := by push_cast; ring
    rw [h1, roundQ_neg, roundQ_of_nonneg, roundMagnitude_of_repr (-m) e (by omega) _ he]
    · rw [abs_of_neg hneg] at hm; exact hm
    · apply mul_nonneg _ (two_zpow_pos e).le
      exact_mod_cast (by omega : (0 : Int) ≤ -m)
  · rw [h0]; simp [roundQ_zero]
  · rw [roundQ_of_nonneg, roundMagnitude_of_repr m e hpos _ he]
    · rw [abs_of_pos hpos] at hm; exact hm
    · apply mul_nonneg _ (two_zpow_pos e).le
      exact_mod_cast hpos.le

theorem roundQ_intCast (n : Int) (hn : |n| < 2 ^ 53) : roundQ (n : ℚ) = n := by
  have := roundQ_of_repr n 0 hn (by norm_num)
  simpa using this

theorem roundHalfEven_eq_of_near (q : ℚ) (m : Int)
    (h : |q - m| < 1 / 2 ∨ (|q - m| = 1 / 2 ∧ m % 2 = 0)) : roundHalfEven q = m := by
  rcases h with h | ⟨h, heven⟩
  · rw [abs_lt] at h
    obtain ⟨h1, h2⟩ := h
    rcases le_or_lt (m : ℚ) q with hle | hlt
    · have hf : ⌊q⌋ = m := Int.floor_eq_iff.mpr ⟨hle, by linarith⟩
      unfold roundHalfEven
      simp only [hf]
      rw [if_pos (by linarith)]
    · have hf : ⌊q⌋ = m - 1 := Int.floor_eq_iff.mpr ⟨by push_cast; linarith, by push_cast; linarith⟩
      unfold roundHalfEven
      simp only [hf]
      rw [if_neg (by push_cast; linarith), if_pos (by push_cast; linarith)]
      omega
  · rcases abs_eq (by norm_num : (0 : ℚ) ≤ 1 / 2) |>.mp h with hpos | hneg
    · have hf : ⌊q⌋ = m := Int.floor_eq_iff.mpr ⟨by linarith, by linarith⟩
      unfold roundHalfEven
      simp only [hf]
      rw [if_neg (by linarith), if_neg (by linarith), if_pos heven]
    · have hf : ⌊q⌋ = m - 1 := Int.floor_eq_iff.mpr ⟨by push_cast; linarith, by push_cast; linarith⟩
      unfold roundHalfEven
      simp only [hf]
      rw [if_neg (by push_cast; linarith), if_neg (by push_cast; linarith), if_neg (by omega)]
      omega

theorem ulpExponent_eq_of_bounds (x : ℚ) (e : Int) (hx : 0 < x) (he : -1074 ≤ e)
    (hlo : (2 : ℚ) ^ (e + 52) ≤ x) (hhi : x < 2 ^ (e + 53)) : ulpExponent x = e := by
  have h1 : e + 52 ≤ Int.log 2 x :=
    (Int.zpow_le_iff_le_log (by norm_num) hx).mp (by rw [Nat.cast_ofNat]; exact hlo)
  have h2 : Int.log 2 x < e + 53 :=
    (Int.lt_zpow_iff_log_lt (by norm_num) hx).mp (by rw [Nat.cast_ofNat]; exact hhi)
  unfold ulpExponent
  rw [abs_of_pos hx]
  omega

theorem roundQ_eq_of_near (x : ℚ) (m e : Int) (hx : 0 < x) (he : -1074 ≤ e)
    (hlo : (2 : ℚ) ^ (e + 52) ≤ x) (hhi : x < 2 ^ (e + 53))
    (hnear : |x / 2 ^ e - m| < 1 / 2 ∨ (|x / 2 ^ e - m| = 1 / 2 ∧ m % 2 = 0)) :
    roundQ x = (m : ℚ) * 2 ^ e := by
  rw [roundQ_of_nonneg hx.le]
  unfold roundMagnitude
  rw [ulpExponent_eq_of_bounds x e hx he hlo hhi, roundHalfEven_eq_of_near _ m hnear]

/-! ## Auxiliary facts: doubles -/

theorem abs_roundQ (x : ℚ) : |roundQ x| = roundQ |x| := by
  rcases le_total 0 x with hx | hx
  · rw [abs_of_nonneg hx, abs_of_nonneg (roundQ_nonneg hx)]
  · rw [abs_of_nonpos hx, abs_of_nonpos (roundQ_nonpos hx), roundQ_neg]

/-- Rounding moves a value by at most half a unit in its last place. -/
theorem roundQ_error (x : ℚ) : |roundQ x - x| ≤ |x| / 2 ^ 53 + 1 / 2 ^ 1075 := by
  have hmag : ∀ y : ℚ, 0 ≤ y → |roundMagnitude y - y| ≤ y / 2 ^ 53 + 1 / 2 ^ 1075 := by
    intro y hy
    have hE := two_zpow_pos (ulpExponent y)
    have h1 := roundHalfEven_le (y / 2 ^ ulpExponent y)
    have h2 := le_roundHalfEven (y / 2 ^ ulpExponent y)
    have hhalf : |roundMagnitude y - y| ≤ 2 ^ ulpExponent y / 2 := by
      unfold roundMagnitude
      rw [abs_le]
      have hy' : y = y / 2 ^ ulpExponent y * 2 ^ ulpExponent y :=
        (div_mul_cancel₀ _ hE.ne').symm
      constructor
      · nlinarith
      · nlinarith
    rcases eq_or_lt_of_le (ulpExponent_ge y) with hsub | hnorm
    · have h3 : (2 : ℚ) ^ ulpExponent y / 2 = 1 / 2 ^ 1075 := by
        rw [← hsub]
        norm_num
      have h4 : 0 ≤ y / 2 ^ 53 := by positivity
      linarith
    · rcases eq_or_lt_of_le hy with h0 | hpos
      · rw [← h0] at hhalf ⊢
        simp only [roundMagnitude_zero, sub_zero, abs_zero] at hhalf ⊢
        positivity
      · have h5 := zpow_ulpExponent_le hpos hnorm
        rw [zpow_add₀ (by norm_num)] at h5
        have h52 : (2 : ℚ) ^ (52 : Int) = 2 ^ 52 := by norm_cast
        rw [h52] at h5
        have h6 : (2 : ℚ) ^ ulpExponent y / 2 ≤ y / 2 ^ 53 := by
          rw [div_le_div_iff₀ (by norm_num) (by positivity)]
          nlinarith
        have h7 : (0 : ℚ) ≤ 1 / 2 ^ 1075 := by positivity
        linarith
  rcases le_total 0 x with hx | hx
  · rw [roundQ_of_nonneg hx, abs_of_nonneg hx]
    exact hmag x hx
  · rw [roundQ_of_nonpos hx, abs_of_nonpos hx]
    have := hmag (-x) (neg_nonneg.mpr hx)
    rw [show -roundMagnitude (-x) - x = -(roundMagnitude (-x) - -x) by ring, abs_neg]
    exact this

theorem Double.round_ne_nan (x : ℚ) : Double.round x ≠ Double.nan := by
  unfold Double.round
  split <;> simp

theorem Double.round_eq_finite {x v : ℚ} (h : Double.round x = Double.finite v) :
    v = roundQ x ∧ |roundQ x| < 2 ^ 1024 := by
  unfold Double.round at h
  split at h
  · simp at h
  · rename_i hlt
    simp only [Double.finite.injEq] at h
    exact ⟨h.symm, not_le.mp hlt⟩

theorem Double.round_of_lt {x : ℚ} (h : |roundQ x| < 2 ^ 1024) :
    Double.round x = Double.finite (roundQ x) := by
  unfold Double.round
  rw [if_neg (not_le.mpr h)]

/-- A finite result of a rounding is a double: rounding it again changes nothing. -/
theorem Double.round_round {x v : ℚ} (h : Double.round x = Double.finite v) :
    Double.round v = Double.finite v := by
  obtain ⟨hv, hlt⟩ := Double.round_eq_finite h
  have hidem : roundQ v = v := by rw [hv, roundQ_idem]
  have := Double.round_of_lt (x := v) (by rw [hidem, hv]; exact hlt)
  rw [this, hidem]

theorem Double.round_zero : Double.round 0 = Double.finite 0 := by
  have := Double.round_of_lt (x := 0) (by rw [roundQ_zero]; norm_num)
  rw [this, roundQ_zero]

theorem Double.round_intCast (n : Int) (hn : |n| < 2 ^ 53) :
    Double.round (n : ℚ) = Double.finite (n : ℚ) := by
  have h1 := roundQ_intCast n hn
  have hq : |(n : ℚ)| < 2 ^ 53 := by exact_mod_cast hn
  have := Double.round_of_lt (x := (n : ℚ)) (by
    rw [h1]
    exact lt_trans hq (by norm_num))
  rw [this, h1]

theorem Double.ofInt_eq (n : Int) (hn : |n| < 2 ^ 53) :
    Double.ofInt n = Double.finite (n : ℚ) :=
  Double.round_intCast n hn

/-- Rounding is monotone, overflow included. -/
theorem Double.round_mono {x y : ℚ} (hxy : x ≤ y) :
    Double.le (Double.round x) (Double.round y) = true := by
  have hm := roundQ_mono hxy
  unfold Double.round
  by_cases hx : (2 : ℚ) ^ 1024 ≤ |roundQ x|
  · rw [if_pos hx]
    by_cases hneg : x < 0
    · by_cases hy : (2 : ℚ) ^ 1024 ≤ |roundQ y|
      · rw [if_pos hy]; simp [Double.le, hneg]
      · rw [if_neg hy]; simp [Double.le, hneg]
    · have hx0 : 0 ≤ x := not_lt.mp hneg
      have hy0 : 0 ≤ y := hx0.trans hxy
      rw [abs_of_nonneg (roundQ_nonneg hx0)] at hx
      have hy : (2 : ℚ) ^ 1024 ≤ |roundQ y| := by
        rw [abs_of_nonneg (roundQ_nonneg hy0)]
        exact hx.trans hm
      rw [if_pos hy]
      simp [Double.le, hneg, not_lt.mpr hy0]
  · rw [if_neg hx]
    by_cases hy : (2 : ℚ) ^ 1024 ≤ |roundQ y|
    · rw [if_pos hy]
      by_cases hneg : y < 0
      · exfalso
        have hy1 : roundQ y ≤ 0 := roundQ_nonpos hneg.le
        rw [abs_of_nonpos hy1] at hy
        have hx1 : roundQ x ≤ 0 := hm.trans hy1
        rw [abs_of_nonpos hx1] at hx
        linarith
      · simp [Double.le, hneg]
    · rw [if_neg hy]
      simp [Double.le, hm]

theorem Double.le_refl_of_ne_nan {a : Double} (h : a ≠ Double.nan) : Double.le a a = true := by
  cases a with
  | finite v => simp [Double.le]
  | infinite s => cases s <;> simp [Double.le]
  | nan => exact absurd rfl h

/-- Adding the same finite number on the right keeps the order. -/
theorem Double.add_le_add_right {a b : Double} (hab : Double.le a b = true) (c : ℚ) :
    Double.le (Double.add a (Double.finite c)) (Double.add b (Double.finite c)) = true := by
  cases a with
  | nan => simp [Double.le] at hab
  | finite x =>
    cases b with
    | nan => simp [Double.le] at hab
    | finite y =>
      simp only [Double.le, decide_eq_true_eq] at hab
      exact Double.round_mono (by linarith)
    | infinite t =>
      simp only [Double.le] at hab
      simp only [Double.add]
      cases t with
      | true => simp at hab
      | false =>
        cases h : Double.round (x + c) with
        | nan => exact absurd h (Double.round_ne_nan _)
        | finite v => rfl
        | infinite s => cases s <;> rfl
  | infinite s =>
    cases b with
    | nan => simp [Double.le] at hab
    | finite y =>
      simp only [Double.le] at hab
      subst hab
      simp only [Double.add]
      cases h : Double.round (y + c) with
      | nan => exact absurd h (Double.round_ne_nan _)
      | finite v => rfl
      | infinite s => cases s <;> rfl
    | infinite t =>
      simp only [Double.add]
      exact hab

/-! ## Auxiliary facts: tick layout -/

theorem Double.round_neg (x : ℚ) : Double.round (-x) = Double.neg (Double.round x) := by
  unfold Double.round
  rw [roundQ_neg, abs_neg]
  by_cases h : (2 : ℚ) ^ 1024 ≤ |roundQ x|
  · rw [if_pos h, if_pos h]
    simp only [Double.neg, Double.infinite.injEq]
    have hx : x ≠ 0 := by
      intro h0
      rw [h0, roundQ_zero] at h
      norm_num at h
    rcases lt_or_gt_of_ne hx with hneg | hpos
    · simp [hneg, not_lt.mpr (neg_nonneg.mpr hneg.le)]
    · simp [hpos, not_lt.mpr hpos.le]
  · rw [if_neg h, if_neg h]
    rfl

/-- A value with a significand below `2 ^ 53` and an exponent in range is a double. -/
theorem Double.round_of_repr (m e : Int) (hm : |m| < 2 ^ 53) (he : -1074 ≤ e) (he2 : e ≤ 971) :
    Double.round ((m : ℚ) * 2 ^ e) = Double.finite ((m : ℚ) * 2 ^ e) := by
  have h1 := roundQ_of_repr m e hm he
  have hlt : |roundQ ((m : ℚ) * 2 ^ e)| < 2 ^ 1024 := by
    rw [h1, abs_mul, abs_of_pos (two_zpow_pos e)]
    have hmq : |(m : ℚ)| < 2 ^ 53 := by exact_mod_cast hm
    have h53 : (2 : ℚ) ^ 53 = 2 ^ (53 : Int) := by norm_cast
    have h1024 : (2 : ℚ) ^ 1024 = 2 ^ (1024 : Int) := (zpow_natCast (2 : ℚ) 1024).symm
    rw [h1024]
    calc |(m : ℚ)| * 2 ^ e < 2 ^ 53 * 2 ^ e :=
          mul_lt_mul_of_pos_right hmq (two_zpow_pos e)
      _ = 2 ^ (53 + e) := by rw [h53, zpow_add₀ (by norm_num)]
      _ ≤ 2 ^ (1024 : Int) := zpow_le_zpow_right₀ (by norm_num) (by omega)
  rw [Double.round_of_lt hlt, h1]

/-- Evaluation of a rounding of a positive normal value: exhibit the significand. -/
theorem Double.round_eq_of_near (x : ℚ) (m e : Int) (hx : 0 < x) (he : -1074 ≤ e)
    (he2 : e ≤ 971) (hm : |m| < 2 ^ 53)
    (hlo : (2 : ℚ) ^ (e + 52) ≤ x) (hhi : x < 2 ^ (e + 53))
    (hnear : |x / 2 ^ e - m| < 1 / 2 ∨ (|x / 2 ^ e - m| = 1 / 2 ∧ m % 2 = 0)) :
    Double.round x = Double.finite ((m : ℚ) * 2 ^ e) := by
  have h1 := roundQ_eq_of_near x m e hx he hlo hhi hnear
  have h2 := Double.round_of_repr m e hm he he2
  have h3 : roundQ ((m : ℚ) * 2 ^ e) = (m : ℚ) * 2 ^ e := roundQ_of_repr m e hm he
  obtain ⟨_, hlt⟩ := Double.round_eq_finite h2
  rw [h3] at hlt
  rw [Double.round_of_lt (by rw [h1]; exact hlt), h1]

theorem fillPoints_length (deltaY bottom : Double) (remaining : Nat) :
    ∀ (i : Nat) (points : List Double),
      (ChartDateTimeAxisY.fillPoints deltaY bottom remaining i points).length = points.length := by
  induction remaining with
  | zero => intro i points; rfl
  | succ k ih =>
    intro i points
    simp [ChartDateTimeAxisY.fillPoints, ih]

theorem fillPoints_getElem? (deltaY bottom : Double) (remaining : Nat) :
    ∀ (i : Nat) (points : List Double) (j : Nat), i + remaining ≤ points.length →
      (ChartDateTimeAxisY.fillPoints deltaY bottom remaining i points)[j]? =
        if i ≤ j ∧ j < i + remaining then
          some (Double.add (Double.mul (Double.ofInt j) (Double.neg deltaY)) bottom)
        else points[j]? := by
  induction remaining with
  | zero =>
    intro i points j _
    have hnot : ¬ (i ≤ j ∧ j < i + 0) := by omega
    rw [if_neg hnot]
    rfl
  | succ k ih =>
    intro i points j hlen
    rw [ChartDateTimeAxisY.fillPoints, ih (i + 1) _ j (by simp; omega)]
    by_cases h1 : i + 1 ≤ j ∧ j < i + 1 + k
    · have h2 : i ≤ j ∧ j < i + (k + 1) := by omega
      simp [h1, h2]
    · rw [if_neg h1]
      by_cases h3 : i = j
      · subst h3
        have h2 : i ≤ i ∧ i < i + (k + 1) := by omega
        have h4 : i < points.length := by omega
        simp [h2, h4]
      · have h2 : ¬ (i ≤ j ∧ j < i + (k + 1)) := by omega
        rw [if_neg h2]
        simp [List.getElem?_set, h3]

/-- The divisor `qreal(tickCount) - 1.0` of a tick count in the range of `int`. -/
theorem tickDivisor_eq (N : Int) (hN : 2 ≤ N) (hInt : N < 2 ^ 31) :
    Double.sub (Double.ofInt N) (Double.finite 1) = Double.finite ((N : ℚ) - 1) := by
  rw [Double.ofInt_eq N (by rw [abs_of_nonneg (by omega)]; omega)]
  simp only [Double.sub, Double.neg, Double.add]
  have h := Double.round_intCast (N - 1) (by rw [abs_of_nonneg (by omega)]; omega)
  push_cast at h
  rw [← sub_eq_add_neg]
  exact h

/-- For a tick count of at least two the assertion passes in either build and
`calculateLayout` returns the vector filled by the loop. -/
theorem calculateLayout_ok (qtNoDebug : Bool) (N : Int) (hN : 2 ≤ N) (hInt : N < 2 ^ 31)
    (gridRect : QRectF) :
    ChartDateTimeAxisY.calculateLayout qtNoDebug { tickCount := N, gridGeometry := gridRect } =
      Except.ok (ChartDateTimeAxisY.fillPoints
        (Double.div gridRect.height (Double.finite ((N : ℚ) - 1)))
        gridRect.bottom N.toNat 0 (List.replicate N.toNat (Double.finite 0))) := by
  unfold ChartDateTimeAxisY.calculateLayout
  simp only []
  have h1 : (!qtNoDebug && decide (N < 2)) = false := by
    have : ¬ N < 2 := by omega
    simp [this]
  rw [h1, tickDivisor_eq N hN hInt]
  rw [if_neg (by simp), if_neg (by omega)]

/-- Entry `i` of the vector filled by the loop, as the loop body computes it. -/
theorem calculateLayout_entry (N : Int) (deltaY bottom : Double) (i : Nat)
    (hi : (i : Int) < N) :
    (ChartDateTimeAxisY.fillPoints deltaY bottom N.toNat 0
        (List.replicate N.toNat (Double.finite 0)))[i]? =
      some (Double.add (Double.mul (Double.ofInt i) (Double.neg deltaY)) bottom) := by
  rw [fillPoints_getElem? _ _ _ _ _ _ (by simp)]
  rw [if_pos ⟨Nat.zero_le _, by omega⟩]

/-- The step `deltaY` of a rectangle whose height is a finite double is finite. -/
theorem deltaY_eq (N : Int) (hN : 2 ≤ N) (vh : ℚ)
    (hvalid : Double.round vh = Double.finite vh) :
    Double.div (Double.finite vh) (Double.finite ((N : ℚ) - 1)) =
      Double.finite (roundQ (vh / ((N : ℚ) - 1))) := by
  have hn : (1 : ℚ) ≤ (N : ℚ) - 1 := by
    have : (2 : ℚ) ≤ (N : ℚ) := by exact_mod_cast hN
    linarith
  have hne : (N : ℚ) - 1 ≠ 0 := by linarith
  simp only [Double.div, if_neg hne]
  apply Double.round_of_lt
  obtain ⟨hv, hlt⟩ := Double.round_eq_finite hvalid
  rw [abs_roundQ] at hlt ⊢
  refine lt_of_le_of_lt (roundQ_mono ?_) hlt
  rw [abs_div, abs_of_pos (by linarith : (0 : ℚ) < (N : ℚ) - 1)]
  exact div_le_self (abs_nonneg _) hn

/-- A finite sum `qreal(i) * -deltaY + b` has finite intermediate results, each the
rounding of the exact one. -/
theorem layout_point_finite (deltaY : Double) (i : Nat) (hi : (i : Int) < 2 ^ 31) (b p : ℚ)
    (h : Double.add (Double.mul (Double.ofInt i) (Double.neg deltaY)) (Double.finite b) =
      Double.finite p) :
    ∃ d : ℚ, deltaY = Double.finite d ∧
      p = roundQ (roundQ ((i : ℚ) * -d) + b) := by
  have hofInt : Double.ofInt (i : Int) = Double.finite (i : ℚ) := by
    have := Double.ofInt_eq (i : Int) (by rw [abs_of_nonneg (by omega)]; omega)
    simpa using this
  rw [hofInt] at h
  cases deltaY with
  | nan => simp [Double.neg, Double.mul, Double.add] at h
  | infinite s =>
    simp only [Double.neg, Double.mul] at h
    split at h <;> simp [Double.add] at h
  | finite d =>
    refine ⟨d, rfl, ?_⟩
    simp only [Double.neg, Double.mul] at h
    cases ht : Double.round ((i : ℚ) * -d) with
    | nan => exact absurd ht (Double.round_ne_nan _)
    | infinite s => rw [ht] at h; simp [Double.add] at h
    | finite t =>
      rw [ht] at h
      simp only [Double.add] at h
      obtain ⟨ht1, _⟩ := Double.round_eq_finite ht
      obtain ⟨hp1, _⟩ := Double.round_eq_finite h
      rw [hp1, ht1]

/-- The distance between a finite point of the layout and the exact value
`b - i * height / (N - 1)`: three roundings, of the quotient, of the product and of
the sum. -/
theorem layout_point_error (N : Int) (hN : 2 ≤ N) (hInt : N < 2 ^ 31) (vh b p : ℚ) (i : Nat)
    (hi : (i : Int) < N)
    (h : Double.add (Double.mul (Double.ofInt i)
        (Double.neg (Double.div (Double.finite vh) (Double.finite ((N : ℚ) - 1)))))
        (Double.finite b) = Double.finite p) :
    |p - (b - (i : ℚ) * vh / ((N : ℚ) - 1))| ≤
      (|b| + 4 * |vh|) / 2 ^ 53 + (2 * (N : ℚ) + 1) / 2 ^ 1075 := by
  have hn : (1 : ℚ) ≤ (N : ℚ) - 1 := by
    have : (2 : ℚ) ≤ (N : ℚ) := by exact_mod_cast hN
    linarith
  have hne : (N : ℚ) - 1 ≠ 0 := by linarith
  have hin : (i : ℚ) ≤ (N : ℚ) - 1 := by
    have : ((i : Int) : ℚ) ≤ ((N - 1 : Int) : ℚ) := by exact_mod_cast (by omega : (i : Int) ≤ N - 1)
    push_cast at this
    exact this
  have hi0 : (0 : ℚ) ≤ (i : ℚ) := Nat.cast_nonneg i
  obtain ⟨d, hd, hp⟩ := layout_point_finite _ i (by omega) b p h
  simp only [Double.div, if_neg hne] at hd
  obtain ⟨hd1, _⟩ := Double.round_eq_finite hd
  have e1 := roundQ_error (vh / ((N : ℚ) - 1))
  have e2 := roundQ_error ((i : ℚ) * -d)
  have e3 := roundQ_error (roundQ ((i : ℚ) * -d) + b)
  rw [← hd1] at e1
  rw [← hp] at e3
  have hη : (0 : ℚ) ≤ 1 / 2 ^ 1075 := by positivity
  rw [show (2 * (N : ℚ) + 1) / 2 ^ 1075 = (2 * (N : ℚ) + 1) * (1 / 2 ^ 1075) by ring]
  generalize (1 : ℚ) / 2 ^ 1075 = η at e1 e2 e3 hη ⊢
  generalize roundQ ((i : ℚ) * -d) = t at e2 e3 hp
  -- magnitudes
  have hQ : |vh / ((N : ℚ) - 1)| = |vh| / ((N : ℚ) - 1) := by
    rw [abs_div, abs_of_pos (by linarith : (0 : ℚ) < (N : ℚ) - 1)]
  rw [hQ] at e1
  have hA : |(i : ℚ) * -d| = (i : ℚ) * |d| := by
    rw [abs_mul, abs_neg, abs_of_nonneg hi0]
  rw [hA] at e2
  have hIQ : (i : ℚ) * (|vh| / ((N : ℚ) - 1)) ≤ |vh| := by
    rw [← mul_div_assoc, div_le_iff₀ (by linarith)]
    exact mul_le_mul_of_nonneg_right hin (abs_nonneg vh) |>.trans_eq (mul_comm _ _)
  have hJ : (i : ℚ) * η ≤ ((N : ℚ) - 1) * η := mul_le_mul_of_nonneg_right hin hη
  have hK : η ≤ ((N : ℚ) - 1) * η := by nlinarith
  have hd2 : |d| ≤ |vh| / ((N : ℚ) - 1) + (|vh| / ((N : ℚ) - 1) / 2 ^ 53 + η) := by
    have := abs_sub_abs_le_abs_sub d (vh / ((N : ℚ) - 1))
    rw [hQ] at this
    linarith
  have hA2 : (i : ℚ) * |d| ≤ |vh| + |vh| / 2 ^ 53 + ((N : ℚ) - 1) * η := by
    have h1 := mul_le_mul_of_nonneg_left hd2 hi0
    have h2 : (i : ℚ) * (|vh| / ((N : ℚ) - 1) + (|vh| / ((N : ℚ) - 1) / 2 ^ 53 + η)) =
        (i : ℚ) * (|vh| / ((N : ℚ) - 1)) + (i : ℚ) * (|vh| / ((N : ℚ) - 1)) / 2 ^ 53 +
          (i : ℚ) * η := by ring
    rw [h2] at h1
    have h3 : (i : ℚ) * (|vh| / ((N : ℚ) - 1)) / 2 ^ 53 ≤ |vh| / 2 ^ 53 :=
      div_le_div_of_nonneg_right hIQ (by positivity)
    linarith
  have hE1 : (i : ℚ) * |d - vh / ((N : ℚ) - 1)| ≤ |vh| / 2 ^ 53 + ((N : ℚ) - 1) * η := by
    have h1 := mul_le_mul_of_nonneg_left e1 hi0
    have h2 : (i : ℚ) * (|vh| / ((N : ℚ) - 1) / 2 ^ 53 + η) =
        (i : ℚ) * (|vh| / ((N : ℚ) - 1)) / 2 ^ 53 + (i : ℚ) * η := by ring
    rw [h2] at h1
    have h3 : (i : ℚ) * (|vh| / ((N : ℚ) - 1)) / 2 ^ 53 ≤ |vh| / 2 ^ 53 :=
      div_le_div_of_nonneg_right hIQ (by positivity)
    linarith
  have hT : |t| ≤ (i : ℚ) * |d| + ((i : ℚ) * |d| / 2 ^ 53 + η) := by
    have := abs_sub_abs_le_abs_sub t ((i : ℚ) * -d)
    rw [hA] at this
    linarith
  have hTB : |t + b| ≤ |t| + |b| := abs_add t b
  have hsplit : p - (b - (i : ℚ) * vh / ((N : ℚ) - 1)) =
      (p - (t + b)) + (t - (i : ℚ) * -d) - (i : ℚ) * (d - vh / ((N : ℚ) - 1)) := by
    field_simp
    ring
  have htri : |p - (b - (i : ℚ) * vh / ((N : ℚ) - 1))| ≤
      |p - (t + b)| + |t - (i : ℚ) * -d| + (i : ℚ) * |d - vh / ((N : ℚ) - 1)| := by
    rw [hsplit]
    have h1 := abs_sub ((p - (t + b)) + (t - (i : ℚ) * -d)) ((i : ℚ) * (d - vh / ((N : ℚ) - 1)))
    have h2 := abs_add (p - (t + b)) (t - (i : ℚ) * -d)
    have h3 : |(i : ℚ) * (d - vh / ((N : ℚ) - 1))| = (i : ℚ) * |d - vh / ((N : ℚ) - 1)| := by
      rw [abs_mul, abs_of_nonneg hi0]
    linarith
  have hb0 := abs_nonneg b
  have hv0 := abs_nonneg vh
  have ht0 := abs_nonneg t
  rw [show (2 * (N : ℚ) + 1) * η = 2 * (((N : ℚ) - 1) * η) + 3 * η by ring]
  generalize |p - (b - (i : ℚ) * vh / ((N : ℚ) - 1))| = X at htri ⊢
  generalize |p - (t + b)| = E3 at htri e3
  generalize |t - (i : ℚ) * -d| = E2 at htri e2
  generalize (i : ℚ) * |d - vh / ((N : ℚ) - 1)| = E1 at htri hE1
  generalize |t + b| = S at e3 hTB
  generalize |t| = T at hT hTB ht0
  generalize (i : ℚ) * |d| = A at e2 hA2 hT
  generalize |b| = B at hTB hb0 ⊢
  generalize |vh| = H at hA2 hE1 hv0 ⊢
  generalize ((N : ℚ) - 1) * η = K at hK hA2 hE1 ⊢
  have e3b : E3 ≤ (T + B) / 2 ^ 53 + η := by
    have : S / 2 ^ 53 ≤ (T + B) / 2 ^ 53 := div_le_div_of_nonneg_right hTB (by positivity)
    linarith
  have hTb : T / 2 ^ 53 ≤ (A + (A / 2 ^ 53 + η)) / 2 ^ 53 :=
    div_le_div_of_nonneg_right hT (by positivity)
  have hAb : A / 2 ^ 53 ≤ (H + H / 2 ^ 53 + K) / 2 ^ 53 :=
    div_le_div_of_nonneg_right hA2 (by positivity)
  have hAc : A / 2 ^ 53 / 2 ^ 53 ≤ (H + H / 2 ^ 53 + K) / 2 ^ 53 / 2 ^ 53 :=
    div_le_div_of_nonneg_right hAb (by positivity)
  have hK0 : 0 ≤ K := le_trans hη hK
  linarith

/-- Point 0 of the layout of a finite rectangle is its bottom edge. -/
theorem layout_point_zero (N : Int) (hN : 2 ≤ N) (gridRect : QRectF)
    (hrect : gridRect.isFinite = true) :
    Double.add (Double.mul (Double.ofInt ((0 : Nat) : Int))
      (Double.neg (Double.div gridRect.height (Double.finite ((N : ℚ) - 1)))))
      gridRect.bottom = gridRect.bottom := by
  obtain ⟨xp, yp, w, h⟩ := gridRect
  simp only [QRectF.isFinite, Bool.and_eq_true] at hrect
  obtain ⟨⟨⟨_, hy⟩, _⟩, hh⟩ := hrect
  cases h with
  | nan => simp [Double.isFinite] at hh
  | infinite s => simp [Double.isFinite] at hh
  | finite vh =>
    cases yp with
    | nan => simp [Double.isFinite] at hy
    | infinite s => simp [Double.isFinite] at hy
    | finite vy =>
      simp only [Double.isFinite, decide_eq_true_eq] at hh
      simp only [QRectF.height, QRectF.bottom]
      rw [deltaY_eq N hN vh hh]
      have h0 : Double.ofInt ((0 : Nat) : Int) = Double.finite 0 := by
        have := Double.ofInt_eq 0 (by norm_num)
        simpa using this
      rw [h0]
      simp only [Double.neg, Double.mul, zero_mul, Double.round_zero]
      simp only [Double.add]
      cases hb : Double.round (vy + vh) with
      | nan => exact absurd hb (Double.round_ne_nan _)
      | infinite s => rfl
      | finite b =>
        simp only [zero_add]
        exact Double.round_round hb

/-- With a non-negative finite height and a finite bottom edge, a later point of the
layout is not above an earlier one. -/
theorem layout_point_antitone (N : Int) (hN : 2 ≤ N) (hInt : N < 2 ^ 31) (vh b : ℚ)
    (hvalid : Double.round vh = Double.finite vh) (hvh : 0 ≤ vh) (i j : Nat) (hij : i ≤ j)
    (hj : (j : Int) < N) :
    Double.le
      (Double.add (Double.mul (Double.ofInt j)
        (Double.neg (Double.div (Double.finite vh) (Double.finite ((N : ℚ) - 1)))))
        (Double.finite b))
      (Double.add (Double.mul (Double.ofInt i)
        (Double.neg (Double.div (Double.finite vh) (Double.finite ((N : ℚ) - 1)))))
        (Double.finite b)) = true := by
  have hn : (0 : ℚ) < (N : ℚ) - 1 := by
    have : (2 : ℚ) ≤ (N : ℚ) := by exact_mod_cast hN
    linarith
  rw [deltaY_eq N hN vh hvalid]
  have hd : 0 ≤ roundQ (vh / ((N : ℚ) - 1)) := roundQ_nonneg (div_nonneg hvh hn.le)
  have hofInt : ∀ k : Nat, (k : Int) < N → Double.ofInt (k : Int) = Double.finite (k : ℚ) := by
    intro k hk
    have := Double.ofInt_eq (k : Int) (by rw [abs_of_nonneg (by omega)]; omega)
    simpa using this
  rw [hofInt j hj, hofInt i (by omega)]
  simp only [Double.neg, Double.mul]
  apply Double.add_le_add_right
  apply Double.round_mono
  have hijq : (i : ℚ) ≤ (j : ℚ) := by exact_mod_cast hij
  nlinarith

/-- With height zero every point of the layout of a finite rectangle is its bottom
edge. -/
theorem layout_point_zero_height (N : Int) (hN : 2 ≤ N) (hInt : N < 2 ^ 31)
    (gridRect : QRectF) (hrect : gridRect.isFinite = true)
    (hzero : gridRect.height = Double.finite 0) (i : Nat) (hi : (i : Int) < N) :
    Double.add (Double.mul (Double.ofInt i)
      (Double.neg (Double.div gridRect.height (Double.finite ((N : ℚ) - 1)))))
      gridRect.bottom = gridRect.bottom := by
  obtain ⟨xp, yp, w, h⟩ := gridRect
  simp only [QRectF.height] at hzero
  subst hzero
  simp only [QRectF.isFinite, Bool.and_eq_true] at hrect
  obtain ⟨⟨⟨_, hy⟩, _⟩, _⟩ := hrect
  cases yp with
  | nan => simp [Double.isFinite] at hy
  | infinite s => simp [Double.isFinite] at hy
  | finite vy =>
    simp only [Double.isFinite, decide_eq_true_eq] at hy
    have hne : (N : ℚ) - 1 ≠ 0 := by
      have : (2 : ℚ) ≤ (N : ℚ) := by exact_mod_cast hN
      intro h0
      linarith
    have hofInt : Double.ofInt (i : Int) = Double.finite (i : ℚ) := by
      have := Double.ofInt_eq (i : Int) (by rw [abs_of_nonneg (by omega)]; omega)
      simpa using this
    simp only [QRectF.height, QRectF.bottom, Double.div, if_neg hne, zero_div,
      Double.round_zero, hofInt, Double.neg, neg_zero, Double.mul, mul_zero, Double.add,
      add_zero, hy, zero_add]

/-- The bottom edge of a rectangle with finite top and height, when finite, is the
rounded sum. -/
theorem bottom_eq_round (gridRect : QRectF) (vy vh b : ℚ)
    (hy : gridRect.yp = Double.finite vy) (hh : gridRect.height = Double.finite vh)
    (hb : gridRect.bottom = Double.finite b) : b = roundQ (vy + vh) := by
  obtain ⟨xp, yp, w, h⟩ := gridRect
  simp only [QRectF.height] at hh
  simp only at hy
  subst hy hh
  simp only [QRectF.bottom, Double.add] at hb
  exact (Double.round_eq_finite hb).1

/-! ## Auxiliary facts: evaluating the layout on examples -/

/-- Evaluation of a rounding, the result given as a fraction. -/
theorem Double.round_eval (x r : ℚ) (m e : Int) (hr : r = (m : ℚ) * 2 ^ e) (hx : 0 < x)
    (he : -1074 ≤ e) (he2 : e ≤ 971) (hm : |m| < 2 ^ 53)
    (hlo : (2 : ℚ) ^ (e + 52) ≤ x) (hhi : x < 2 ^ (e + 53))
    (hnear : |x / 2 ^ e - m| < 1 / 2 ∨ (|x / 2 ^ e - m| = 1 / 2 ∧ m % 2 = 0)) :
    Double.round x = Double.finite r := by
  rw [hr]
  exact Double.round_eq_of_near x m e hx he he2 hm hlo hhi hnear

/-- One point of the layout from the two roundings that produce it. -/
theorem layout_point_eval (i : Nat) (d b t p : ℚ) (hi : (i : Int) < 2 ^ 31)
    (hmul : Double.round ((i : ℚ) * d) = Double.finite t)
    (hadd : Double.round (b - t) = Double.finite p) :
    Double.add (Double.mul (Double.ofInt i) (Double.neg (Double.finite d))) (Double.finite b) =
      Double.finite p := by
  have hofInt : Double.ofInt (i : Int) = Double.finite (i : ℚ) := by
    have := Double.ofInt_eq (i : Int) (by rw [abs_of_nonneg (by omega)]; omega)
    simpa using this
  rw [hofInt]
  simp only [Double.neg, Double.mul]
  rw [show (i : ℚ) * -d = -((i : ℚ) * d) by ring, Double.round_neg, hmul]
  simp only [Double.neg, Double.add]
  rw [show -t + b = b - t by ring, hadd]

/-- The step of eight ticks over the height 457: the quotient 457 / 7 rounded. -/
theorem layout8_deltaY :
    Double.round (457 / ((8 : ℚ) - 1)) = Double.finite (4594073727027493 / 2 ^ 46) := by
  apply Double.round_eval (457 / ((8 : ℚ) - 1)) (4594073727027493 / 2 ^ 46) 4594073727027493 (-46)
  · norm_num
  · norm_num
  · norm_num
  · norm_num
  · norm_num
  · norm_num
  · norm_num
  · left
    norm_num [abs_lt]

/-- The rounded product for tick 5 of eight over the height 457. -/
theorem layout8_product5 :
    Double.round ((((5 : Nat) : ℚ)) * (4594073727027493 / 2 ^ 46)) = Double.finite (2871296079392183 / 2 ^ 43) := by
  apply Double.round_eval ((((5 : Nat) : ℚ)) * (4594073727027493 / 2 ^ 46)) (2871296079392183 / 2 ^ 43) 5742592158784366 (-44)
  · norm_num
  · norm_num
  · norm_num
  · norm_num
  · norm_num
  · norm_num
  · norm_num
  · left
    norm_num [abs_lt]

/-- The rounded sum for tick 5 of eight over the height 457 from the bottom 477. -/
theorem layout8_sum5 :
    Double.round (477 - 2871296079392183 / 2 ^ 43) = Double.finite (1324440292201033 / 2 ^ 43) := by
  apply Double.round_eval (477 - 2871296079392183 / 2 ^ 43) (1324440292201033 / 2 ^ 43) 5297761168804132 (-45)
  · norm_num
  · norm_num
  · norm_num
  · norm_num
  · norm_num
  · norm_num
  · norm_num
  · left
    norm_num [abs_lt]

/-- Tick 5 of eight over the rectangle with top 20 and height 457. -/
theorem layout8_point5 :
    Double.add (Double.mul (Double.ofInt ((5 : Nat) : Int))
        (Double.neg (Double.finite (4594073727027493 / 2 ^ 46)))) (Double.finite 477) =
      Double.finite (1324440292201033 / 2 ^ 43) :=
  layout_point_eval 5 _ _ _ _ (by norm_num) layout8_product5 layout8_sum5

/-- The rounded product for tick 6 of eight over the height 457. -/
theorem layout8_product6 :
    Double.round ((((6 : Nat) : ℚ)) * (4594073727027493 / 2 ^ 46)) = Double.finite (861388823817655 / 2 ^ 41) := by
  apply Double.round_eval ((((6 : Nat) : ℚ)) * (4594073727027493 / 2 ^ 46)) (861388823817655 / 2 ^ 41) 6891110590541240 (-44)
  · norm_num
  · norm_num
  · norm_num
  · norm_num
  · norm_num
  · norm_num
  · norm_num
  · right
    norm_num [abs_eq_abs]

/-- The rounded sum for tick 6 of eight over the height 457 from the bottom 477. -/
theorem layout8_sum6 :
    Double.round (477 - 861388823817655 / 2 ^ 41) = Double.finite (187545269080649 / 2 ^ 41) := by
  apply Double.round_eval (477 - 861388823817655 / 2 ^ 41) (187545269080649 / 2 ^ 41) 6001448610580768 (-46)
  · norm_num
  · norm_num
  · norm_num
  · norm_num
  · norm_num
  · norm_num
  · norm_num
  · left
    norm_num [abs_lt]

/-- Tick 6 of eight over the rectangle with top 20 and height 457. -/
theorem layout8_point6 :
    Double.add (Double.mul (Double.ofInt ((6 : Nat) : Int))
        (Double.neg (Double.finite (4594073727027493 / 2 ^ 46)))) (Double.finite 477) =
      Double.finite (187545269080649 / 2 ^ 41) :=
  layout_point_eval 6 _ _ _ _ (by norm_num) layout8_product6 layout8_sum6

/-- The rounded product for tick 7 of eight over the height 457. -/
theorem layout8_product7 :
    Double.round ((((7 : Nat) : ℚ)) * (4594073727027493 / 2 ^ 46)) = Double.finite (8039629022298113 / 2 ^ 44) := by
  apply Double.round_eval ((((7 : Nat) : ℚ)) * (4594073727027493 / 2 ^ 46)) (8039629022298113 / 2 ^ 44) 8039629022298113 (-44)
  · norm_num
  · norm_num
  · norm_num
  · norm_num
  · norm_num
  · norm_num
  · norm_num
  · left
    norm_num [abs_lt]

/-- The rounded sum for tick 7 of eight over the height 457 from the bottom 477. -/
theorem layout8_sum7 :
    Double.round (477 - 8039629022298113 / 2 ^ 44) = Double.finite (351843720888319 / 2 ^ 44) := by
  apply Double.round_eval (477 - 8039629022298113 / 2 ^ 44) (351843720888319 / 2 ^ 44) 5629499534213104 (-48)
  · norm_num
  · norm_num
  · norm_num
  · norm_num
  · norm_num
  · norm_num
  · norm_num
  · left
    norm_num [abs_lt]

/-- Tick 7 of eight over the rectangle with top 20 and height 457. -/
theorem layout8_point7 :
    Double.add (Double.mul (Double.ofInt ((7 : Nat) : Int))
        (Double.neg (Double.finite (4594073727027493 / 2 ^ 46)))) (Double.finite 477) =
      Double.finite (351843720888319 / 2 ^ 44) :=
  layout_point_eval 7 _ _ _ _ (by norm_num) layout8_product7 layout8_sum7

/-- The bottom edge of the rectangle with top 10^16 and height 1: a tie, rounded to even. -/
theorem layout3_bottom :
    Double.round (10 ^ 16 + 1) = Double.finite (10000000000000000) := by
  apply Double.round_eval (10 ^ 16 + 1) (10000000000000000) 5000000000000000 (1)
  · norm_num
  · norm_num
  · norm_num
  · norm_num
  · norm_num
  · norm_num
  · norm_num
  · right
    norm_num [abs_eq_abs]

/-- The step of three ticks over the height 1. -/
theorem layout3_deltaY :
    Double.round (1 / ((3 : ℚ) - 1)) = Double.finite (1 / 2 ^ 1) := by
  apply Double.round_eval (1 / ((3 : ℚ) - 1)) (1 / 2 ^ 1) 4503599627370496 (-53)
  · norm_num
  · norm_num
  · norm_num
  · norm_num
  · norm_num
  · norm_num
  · norm_num
  · left
    norm_num [abs_lt]

/-- The product for tick 1 of three over the height 1. -/
theorem layout3_product1 :
    Double.round ((((1 : Nat) : ℚ)) * (1 / 2 ^ 1)) = Double.finite (1 / 2 ^ 1) := by
  apply Double.round_eval ((((1 : Nat) : ℚ)) * (1 / 2 ^ 1)) (1 / 2 ^ 1) 4503599627370496 (-53)
  · norm_num
  · norm_num
  · norm_num
  · norm_num
  · norm_num
  · norm_num
  · norm_num
  · left
    norm_num [abs_lt]

/-- The rounded sum for tick 1 of three from the bottom 10^16. -/
theorem layout3_sum1 :
    Double.round (10000000000000000 - 1 / 2 ^ 1) = Double.finite (10000000000000000) := by
  apply Double.round_eval (10000000000000000 - 1 / 2 ^ 1) (10000000000000000) 5000000000000000 (1)
  · norm_num
  · norm_num
  · norm_num
  · norm_num
  · norm_num
  · norm_num
  · norm_num
  · left
    norm_num [abs_lt]

/-- Tick 1 of three over the rectangle with top 10^16 and height 1. -/
theorem layout3_point1 :
    Double.add (Double.mul (Double.ofInt ((1 : Nat) : Int))
        (Double.neg (Double.finite (1 / 2 ^ 1)))) (Double.finite 10000000000000000) =
      Double.finite (10000000000000000) :=
  layout_point_eval 1 _ _ _ _ (by norm_num) layout3_product1 layout3_sum1

/-- The product for tick 2 of three over the height 1. -/
theorem layout3_product2 :
    Double.round ((((2 : Nat) : ℚ)) * (1 / 2 ^ 1)) = Double.finite (1) := by
  apply Double.round_eval ((((2 : Nat) : ℚ)) * (1 / 2 ^ 1)) (1) 4503599627370496 (-52)
  · norm_num
  · norm_num
  · norm_num
  · norm_num
  · norm_num
  · norm_num
  · norm_num
  · left
    norm_num [abs_lt]

/-- The rounded sum for tick 2 of three from the bottom 10^16. -/
theorem layout3_sum2 :
    Double.round (10000000000000000 - 1) = Double.finite (10000000000000000) := by
  apply Double.round_eval (10000000000000000 - 1) (10000000000000000) 5000000000000000 (1)
  · norm_num
  · norm_num
  · norm_num
  · norm_num
  · norm_num
  · norm_num
  · norm_num
  · right
    norm_num [abs_eq_abs]

/-- Tick 2 of three over the rectangle with top 10^16 and height 1. -/
theorem layout3_point2 :
    Double.add (Double.mul (Double.ofInt ((2 : Nat) : Int))
        (Double.neg (Double.finite (1 / 2 ^ 1)))) (Double.finite 10000000000000000) =
      Double.finite (10000000000000000) :=
  layout_point_eval 2 _ _ _ _ (by norm_num) layout3_product2 layout3_sum2

/-- The step of five ticks over the height 100. -/
theorem layout5_deltaY :
    Double.round (100 / ((5 : ℚ) - 1)) = Double.finite (25) := by
  apply Double.round_eval (100 / ((5 : ℚ) - 1)) (25) 7036874417766400 (-48)
  · norm_num
  · norm_num
  · norm_num
  · norm_num
  · norm_num
  · norm_num
  · norm_num
  · left
    norm_num [abs_lt]

/-- The product for tick 1 of five over the height 100. -/
theorem layout5_product1 :
    Double.round ((((1 : Nat) : ℚ)) * (25)) = Double.finite (25) := by
  apply Double.round_eval ((((1 : Nat) : ℚ)) * (25)) (25) 7036874417766400 (-48)
  · norm_num
  · norm_num
  · norm_num
  · norm_num
  · norm_num
  · norm_num
  · norm_num
  · left
    norm_num [abs_lt]

/-- The sum for tick 1 of five from the bottom 110. -/
theorem layout5_sum1 :
    Double.round (110 - 25) = Double.finite (85) := by
  apply Double.round_eval (110 - 25) (85) 5981343255101440 (-46)
  · norm_num
  · norm_num
  · norm_num
  · norm_num
  · norm_num
  · norm_num
  · norm_num
  · left
    norm_num [abs_lt]

/-- Tick 1 of five over the rectangle with top 10 and height 100. -/
theorem layout5_point1 :
    Double.add (Double.mul (Double.ofInt ((1 : Nat) : Int))
        (Double.neg (Double.finite (25)))) (Double.finite 110) =
      Double.finite (85) :=
  layout_point_eval 1 _ _ _ _ (by norm_num) layout5_product1 layout5_sum1

/-- The product for tick 4 of five over the height 100. -/
theorem layout5_product4 :
    Double.round ((((4 : Nat) : ℚ)) * (25)) = Double.finite (100) := by
  apply Double.round_eval ((((4 : Nat) : ℚ)) * (25)) (100) 7036874417766400 (-46)
  · norm_num
  · norm_num
  · norm_num
  · norm_num
  · norm_num
  · norm_num
  · norm_num
  · left
    norm_num [abs_lt]

/-- The sum for tick 4 of five from the bottom 110. -/
theorem layout5_sum4 :
    Double.round (110 - 100) = Double.finite (10) := by
  apply Double.round_eval (110 - 100) (10) 5629499534213120 (-49)
  · norm_num
  · norm_num
  · norm_num
  · norm_num
  · norm_num
  · norm_num
  · norm_num
  · left
    norm_num [abs_lt]

/-- Tick 4 of five over the rectangle with top 10 and height 100. -/
theorem layout5_point4 :
    Double.add (Double.mul (Double.ofInt ((4 : Nat) : Int))
        (Double.neg (Double.finite (25)))) (Double.finite 110) =
      Double.finite (10) :=
  layout_point_eval 4 _ _ _ _ (by norm_num) layout5_product4 layout5_sum4

/-- An integer below `2 ^ 53` in magnitude is a finite double. -/
theorem Double.isFinite_intCast (n : Int) (hn : |n| < 2 ^ 53) :
    (Double.finite (n : ℚ)).isFinite = true := by
  simp [Double.isFinite, Double.round_intCast n hn]

/-- The sum of two integers that stays below `2 ^ 53` is exact. -/
theorem Double.add_intCast (a b : Int) (h : |a + b| < 2 ^ 53) :
    Double.add (Double.finite (a : ℚ)) (Double.finite (b : ℚ)) = Double.finite ((a + b : Int) : ℚ) := by
  simp only [Double.add]
  have := Double.round_intCast (a + b) h
  push_cast at this ⊢
  exact this

/-- The rectangle of the eight-tick example: top 20, height 457. -/
theorem layout8_bottom :
    Double.add (Double.finite 20) (Double.finite 457) = Double.finite 477 := by
  have := Double.add_intCast 20 457 (by norm_num)
  norm_num at this
  exact this

/-- The rectangle of the five-tick example: top 10, height 100. -/
theorem layout5_bottom :
    Double.add (Double.finite 10) (Double.finite 100) = Double.finite 110 := by
  have := Double.add_intCast 10 100 (by norm_num)
  norm_num at this
  exact this

/-- C1: on a series whose chart reference is null, `attachAxis` and `detachAxis`
return false for every axis argument and leave the series, its list of attached
axes included, exactly as it was; on a series bound to a chart each call is the
chart data set's `attachAxis` / `detachAxis` for that series and axis. -/
theorem attachAxis_detachAxis_contract (datasetOf : QChart → ChartDataSet)
    (s : QAbstractSeries) (axis : QAbstractAxisPtr) :
    (s.chart = none →
      (s.attachAxis datasetOf axis).ret = false ∧
      (s.attachAxis datasetOf axis).series = s ∧
      (s.attachAxis datasetOf axis).series.attachedAxes = s.attachedAxes ∧
      (s.detachAxis datasetOf axis).ret = false ∧
      (s.detachAxis datasetOf axis).series = s ∧
      (s.detachAxis datasetOf axis).series.attachedAxes = s.attachedAxes) ∧
    (∀ c : QChart, s.chart = some c →
      s.attachAxis datasetOf axis = (datasetOf c).attachAxis s axis ∧
      s.detachAxis datasetOf axis = (datasetOf c).detachAxis s axis) := by
  constructor
  · intro hnull
    have h : s.d_ptr.m_chart = none := hnull
    simp [QAbstractSeries.attachAxis, QAbstractSeries.detachAxis, h]
  · intro c hbound
    have h : s.d_ptr.m_chart = some c := hbound
    simp [QAbstractSeries.attachAxis, QAbstractSeries.detachAxis, h]

/-- C1 at a fresh line series (unbound) and at a line series bound to a polar chart. -/
theorem attachAxis_detachAxis_contract_witness :
    ((QAbstractSeries.new SeriesType.SeriesTypeLine 0).chart = none ∧
      ((QAbstractSeries.new SeriesType.SeriesTypeLine 0).attachAxis
          (fun _ => exampleDataSet) (some 7)).ret = false) ∧
    (examplePolarLine.chart = some { addr := 1, chartType := ChartType.ChartTypePolar } ∧
      examplePolarLine.attachAxis (fun _ => exampleDataSet) (some 7) =
        exampleDataSet.attachAxis examplePolarLine (some 7)) :=
  ⟨⟨rfl, ((attachAxis_detachAxis_contract (fun _ => exampleDataSet)
      (QAbstractSeries.new SeriesType.SeriesTypeLine 0) (some 7)).1 rfl).1⟩,
   ⟨rfl, ((attachAxis_detachAxis_contract (fun _ => exampleDataSet)
      examplePolarLine (some 7)).2 _ rfl).1⟩⟩

/-- C2: destroying a series ends in the fatal error "Series still bound to a chart
when destroyed!" exactly when its chart reference is not null, and completes
normally exactly when the chart reference is null. -/
theorem destroy_fatal_iff_bound (s : QAbstractSeries) :
    (s.destroy = Except.error "Series still bound to a chart when destroyed!" ↔
      s.chart ≠ none) ∧
    (s.destroy = Except.ok () ↔ s.chart = none) := by
  unfold QAbstractSeries.destroy QAbstractSeries.chart
  cases h : s.d_ptr.m_chart <;> simp

/-! ## Tick layout -/

/-- C3, as stated, fails: with eight ticks on the grid rectangle with top 20 and
height 457, whose bottom edge is 477, the code's point 7 is
351843720888319 / 2^44 = 19.999999999999943, while
`gridRect.bottom - 7 * gridRect.height / (8 - 1)` is 20. -/
theorem calculateLayout_points_counterexample :
    ∃ points : List Double,
      ChartDateTimeAxisY.calculateLayout false
          { tickCount := 8
            gridGeometry := { xp := Double.finite 0, yp := Double.finite 20
                              w := Double.finite 100, h := Double.finite 457 } } =
        Except.ok points ∧
      (QRectF.mk (Double.finite 0) (Double.finite 20) (Double.finite 100)
        (Double.finite 457)).bottom = Double.finite 477 ∧
      points[7]? = some (Double.finite (351843720888319 / 2 ^ 44)) ∧
      (477 : ℚ) - 7 * 457 / (8 - 1) = 20 ∧
      ¬ points[7]? = some (Double.finite (477 - 7 * 457 / (8 - 1))) := by
  have hentry := calculateLayout_entry 8
    (Double.div (Double.finite 457) (Double.finite ((8 : ℚ) - 1)))
    (Double.add (Double.finite 20) (Double.finite 457)) 7 (by norm_num)
  have hdelta : Double.div (Double.finite 457) (Double.finite ((8 : ℚ) - 1)) =
      Double.finite (4594073727027493 / 2 ^ 46) := by
    simp only [Double.div]
    rw [if_neg (by norm_num)]
    exact layout8_deltaY
  rw [hdelta, layout8_bottom, layout8_point7] at hentry
  refine ⟨_, calculateLayout_ok false 8 (by norm_num) (by norm_num) _, layout8_bottom, ?_,
    by norm_num, ?_⟩
  · simp only [QRectF.height, QRectF.bottom, Int.cast_ofNat]
    rw [hdelta, layout8_bottom]
    exact hentry
  · simp only [QRectF.height, QRectF.bottom, Int.cast_ofNat]
    rw [hdelta, layout8_bottom, hentry]
    norm_num

/-- C3, amended: for a tick count `N` with `2 ≤ N` in the range of `int`, any grid
rectangle and either build, the divisor `N - 1` is not zero and `calculateLayout`
returns exactly `N` points; point `i` is the double
`qreal(i) * -deltaY + gridRect.bottom()` with `deltaY = gridRect.height() / (N - 1)`,
every operation rounded to the nearest double. Point 0 is the bottom edge itself
when the rectangle is finite, and a finite point `i` lies within
`(|bottom| + 4 |height|) / 2^53 + (2 N + 1) / 2^1075` of
`bottom - i * height / (N - 1)`. -/
theorem calculateLayout_points (qtNoDebug : Bool) (N : Int) (hN : 2 ≤ N) (hInt : N < 2 ^ 31)
    (gridRect : QRectF) :
    (Double.sub (Double.ofInt N) (Double.finite 1) = Double.finite ((N : ℚ) - 1) ∧
      (N : ℚ) - 1 ≠ 0) ∧
    ∃ points : List Double,
      ChartDateTimeAxisY.calculateLayout qtNoDebug
          { tickCount := N, gridGeometry := gridRect } = Except.ok points ∧
      (points.length : Int) = N ∧
      (∀ i : Nat, (i : Int) < N →
        points[i]? = some (Double.add (Double.mul (Double.ofInt i)
          (Double.neg (Double.div gridRect.height (Double.finite ((N : ℚ) - 1)))))
          gridRect.bottom)) ∧
      (gridRect.isFinite = true → points[0]? = some gridRect.bottom) ∧
      (∀ (i : Nat) (vh b p : ℚ), (i : Int) < N →
        gridRect.height = Double.finite vh → gridRect.bottom = Double.finite b →
        points[i]? = some (Double.finite p) →
        |p - (b - (i : ℚ) * vh / ((N : ℚ) - 1))| ≤
          (|b| + 4 * |vh|) / 2 ^ 53 + (2 * (N : ℚ) + 1) / 2 ^ 1075) := by
  have hq : ((N : ℚ) - 1 ≠ 0) := by
    have h2 : (2 : ℚ) ≤ (N : ℚ) := by exact_mod_cast hN
    intro h0
    linarith
  refine ⟨⟨tickDivisor_eq N hN hInt, hq⟩, _, calculateLayout_ok qtNoDebug N hN hInt gridRect,
    ?_, ?_, ?_, ?_⟩
  · rw [fillPoints_length, List.length_replicate]
    omega
  · intro i hi
    exact calculateLayout_entry N _ _ i hi
  · intro hrect
    rw [calculateLayout_entry N _ _ 0 (by omega)]
    exact congrArg some (layout_point_zero N hN gridRect hrect)
  · intro i vh b p hi hh hb hp
    rw [calculateLayout_entry N _ _ i hi, hh, hb] at hp
    exact layout_point_error N hN hInt vh b p i hi (Option.some.inj hp)

/-- C3 amended, at five ticks on the rectangle with top 10 and height 100: the
points start at the bottom edge 110, point 4 is 10, and point 4 is within the
rounding bound of `110 - 4 * 100 / (5 - 1)`. -/
theorem calculateLayout_points_witness :
    ((2 : Int) ≤ 5 ∧ (5 : Int) < 2 ^ 31 ∧
      (QRectF.mk (Double.finite 0) (Double.finite 10) (Double.finite 50)
        (Double.finite 100)).isFinite = true) ∧
    ∃ points : List Double,
      ChartDateTimeAxisY.calculateLayout false
          { tickCount := 5
            gridGeometry := QRectF.mk (Double.finite 0) (Double.finite 10) (Double.finite 50)
              (Double.finite 100) } = Except.ok points ∧
      (points.length : Int) = 5 ∧
      points[0]? = some (Double.finite 110) ∧
      points[4]? = some (Double.finite 10) ∧
      |(10 : ℚ) - (110 - ((4 : Nat) : ℚ) * 100 / (((5 : Int) : ℚ) - 1))| ≤
        (|(110 : ℚ)| + 4 * |(100 : ℚ)|) / 2 ^ 53 + (2 * ((5 : Int) : ℚ) + 1) / 2 ^ 1075 := by
  have hfin : ∀ n : Int, |n| < 2 ^ 53 → (Double.finite (n : ℚ)).isFinite = true :=
    Double.isFinite_intCast
  have h0 : (Double.finite 0).isFinite = true := by simpa using hfin 0 (by norm_num)
  have h10 : (Double.finite 10).isFinite = true := by simpa using hfin 10 (by norm_num)
  have h50 : (Double.finite 50).isFinite = true := by simpa using hfin 50 (by norm_num)
  have h100 : (Double.finite 100).isFinite = true := by simpa using hfin 100 (by norm_num)
  have hrect : (QRectF.mk (Double.finite 0) (Double.finite 10) (Double.finite 50)
      (Double.finite 100)).isFinite = true := by
    simp only [QRectF.isFinite, h0, h10, h50, h100, Bool.and_self]
  have hbottom : (QRectF.mk (Double.finite 0) (Double.finite 10) (Double.finite 50)
      (Double.finite 100)).bottom = Double.finite 110 := layout5_bottom
  refine ⟨⟨by decide, by decide, hrect⟩, ?_⟩
  obtain ⟨_, points, hok, hlen, hentry, hstart, hbound⟩ :=
    calculateLayout_points false 5 (by decide) (by decide)
      (QRectF.mk (Double.finite 0) (Double.finite 10) (Double.finite 50) (Double.finite 100))
  have h4 : points[4]? = some (Double.finite 10) := by
    rw [hentry 4 (by norm_num)]
    simp only [QRectF.height, QRectF.bottom, Double.div, Int.cast_ofNat]
    rw [if_neg (by norm_num), layout5_deltaY, layout5_bottom, layout5_point4]
  have hs := hstart hrect
  rw [hbottom] at hs
  exact ⟨points, hok, hlen, hs, h4, hbound 4 100 110 10 (by norm_num) rfl hbottom h4⟩

/-! ## The OpenGL flag -/

/-- C4: on a series whose type is neither `SeriesTypeLine` nor `SeriesTypeScatter`,
starting from the freshly constructed series and after any sequence of
`setUseOpenGL` and `setBlockOpenGL` calls, in either build, `useOpenGL()` is false
and no signal, `useOpenGLChanged` in particular, has been emitted. -/
theorem useOpenGL_unsupported_never (qtNoOpenGL : Bool) (t : SeriesType) (domain : Nat)
    (calls : List OpenGLCall)
    (hLine : t ≠ SeriesType.SeriesTypeLine) (hScatter : t ≠ SeriesType.SeriesTypeScatter) :
    (runCalls qtNoOpenGL (QAbstractSeries.new t domain) calls).1.useOpenGL = false ∧
    Signal.useOpenGLChanged ∉ (runCalls qtNoOpenGL (QAbstractSeries.new t domain) calls).2 ∧
    (runCalls qtNoOpenGL (QAbstractSeries.new t domain) calls).2 = [] := by
  have key : ∀ (cs : List OpenGLCall) (s : QAbstractSeries), s.type = t →
      s.useOpenGL = false →
      (runCalls qtNoOpenGL s cs).1.useOpenGL = false ∧ (runCalls qtNoOpenGL s cs).2 = [] := by
    intro cs
    induction cs with
    | nil => intro s _ huse; exact ⟨huse, rfl⟩
    | cons c cs ih =>
      intro s htype huse
      have hstep : (c.perform qtNoOpenGL s).1.type = t ∧
          (c.perform qtNoOpenGL s).1.useOpenGL = false ∧ (c.perform qtNoOpenGL s).2 = [] := by
        cases c with
        | setUseOpenGL enable =>
          simp only [OpenGLCall.perform]
          rw [setUseOpenGL_unsupported qtNoOpenGL s enable (htype ▸ hLine) (htype ▸ hScatter)]
          exact ⟨htype, huse, rfl⟩
        | setBlockOpenGL enable =>
          cases enable with
          | false => exact ⟨htype, huse, rfl⟩
          | true =>
            simp only [OpenGLCall.perform, QAbstractSeries.setBlockOpenGL, if_true]
            rw [setUseOpenGL_unsupported qtNoOpenGL _ false (htype ▸ hLine) (htype ▸ hScatter)]
            exact ⟨htype, huse, rfl⟩
      obtain ⟨h1, h2, h3⟩ := hstep
      obtain ⟨h4, h5⟩ := ih (c.perform qtNoOpenGL s).1 h1 h2
      refine ⟨h4, ?_⟩
      simp only [runCalls, h3, h5, List.append_nil]
  obtain ⟨h1, h2⟩ := key calls (QAbstractSeries.new t domain) rfl rfl
  refine ⟨h1, ?_, h2⟩
  rw [h2]
  exact List.not_mem_nil _

/-- C4 on a pie series that is asked to enable, block, enable, unblock, enable. -/
theorem useOpenGL_unsupported_never_witness :
    (SeriesType.SeriesTypePie ≠ SeriesType.SeriesTypeLine ∧
      SeriesType.SeriesTypePie ≠ SeriesType.SeriesTypeScatter) ∧
    (runCalls false (QAbstractSeries.new SeriesType.SeriesTypePie 0)
      [OpenGLCall.setUseOpenGL true, OpenGLCall.setBlockOpenGL true,
        OpenGLCall.setUseOpenGL true, OpenGLCall.setBlockOpenGL false,
        OpenGLCall.setUseOpenGL true]).1.useOpenGL = false ∧
    Signal.useOpenGLChanged ∉
      (runCalls false (QAbstractSeries.new SeriesType.SeriesTypePie 0)
        [OpenGLCall.setUseOpenGL true, OpenGLCall.setBlockOpenGL true,
          OpenGLCall.setUseOpenGL true, OpenGLCall.setBlockOpenGL false,
          OpenGLCall.setUseOpenGL true]).2 ∧
    (runCalls false (QAbstractSeries.new SeriesType.SeriesTypePie 0)
      [OpenGLCall.setUseOpenGL true, OpenGLCall.setBlockOpenGL true,
        OpenGLCall.setUseOpenGL true, OpenGLCall.setBlockOpenGL false,
        OpenGLCall.setUseOpenGL true]).2 = [] :=
  ⟨⟨by decide, by decide⟩,
   useOpenGL_unsupported_never false SeriesType.SeriesTypePie 0 _ (by decide) (by decide)⟩

/-- C5: on a series bound to a polar chart whose flag is off, `setUseOpenGL(true)`
leaves the flag off, emits nothing and changes nothing else, in either build; on
a line or scatter series in a polar chart whose flag is on, `setUseOpenGL(false)`
turns the flag off and emits `useOpenGLChanged` once. The second half is about the
build with OpenGL: with `QT_NO_OPENGL` defined the setter is empty, and by
`runCalls_consistent` the flag is never on in that build. -/
theorem setUseOpenGL_polar (s : QAbstractSeries) (c : QChart)
    (hchart : s.chart = some c) (hpolar : c.chartType = ChartType.ChartTypePolar) :
    (s.useOpenGL = false → ∀ qtNoOpenGL : Bool,
      (QAbstractSeries.setUseOpenGL qtNoOpenGL s true).1.useOpenGL = false ∧
      (QAbstractSeries.setUseOpenGL qtNoOpenGL s true).2 = [] ∧
      (QAbstractSeries.setUseOpenGL qtNoOpenGL s true).1 = s) ∧
    (s.useOpenGL = true →
      (s.type = SeriesType.SeriesTypeLine ∨ s.type = SeriesType.SeriesTypeScatter) →
      (QAbstractSeries.setUseOpenGL false s false).1.useOpenGL = false ∧
      (QAbstractSeries.setUseOpenGL false s false).2 = [Signal.useOpenGLChanged]) := by
  have hc : s.d_ptr.m_chart = some c := hchart
  constructor
  · intro huse qtNoOpenGL
    have hnop : QAbstractSeries.setUseOpenGL qtNoOpenGL s true = (s, []) := by
      cases qtNoOpenGL <;> simp [QAbstractSeries.setUseOpenGL, hc, hpolar]
    rw [hnop]
    exact ⟨huse, rfl, rfl⟩
  · intro huse hsupp
    have hu : s.d_ptr.m_useOpenGL = true := huse
    rcases hsupp with ht | ht <;>
      simp [QAbstractSeries.setUseOpenGL, QAbstractSeries.useOpenGL, ht, hu]

/-- C5 at a line series in a polar chart, with the flag off and with the flag on. -/
theorem setUseOpenGL_polar_witness :
    (examplePolarLine.useOpenGL = false ∧
      (QAbstractSeries.setUseOpenGL false examplePolarLine true).1.useOpenGL = false ∧
      (QAbstractSeries.setUseOpenGL false examplePolarLine true).2 = []) ∧
    (({ examplePolarLine with
          d_ptr := { examplePolarLine.d_ptr with m_useOpenGL := true } } :
        QAbstractSeries).useOpenGL = true ∧
      (QAbstractSeries.setUseOpenGL false
        { examplePolarLine with d_ptr := { examplePolarLine.d_ptr with m_useOpenGL := true } }
        false).1.useOpenGL = false) :=
  ⟨⟨rfl, ((setUseOpenGL_polar examplePolarLine
      { addr := 1, chartType := ChartType.ChartTypePolar } rfl rfl).1 rfl false).1,
    ((setUseOpenGL_polar examplePolarLine
      { addr := 1, chartType := ChartType.ChartTypePolar } rfl rfl).1 rfl false).2.1⟩,
   ⟨rfl, ((setUseOpenGL_polar
      { examplePolarLine with d_ptr := { examplePolarLine.d_ptr with m_useOpenGL := true } }
      { addr := 1, chartType := ChartType.ChartTypePolar } rfl rfl).2 rfl (Or.inl rfl)).1⟩⟩

/-- C6: in any state reached from construction by `setUseOpenGL` and
`setBlockOpenGL` calls, `useOpenGL()` is false right after `setBlockOpenGL(true)`,
and it is still false, with OpenGL still blocked, after any further `setUseOpenGL`
calls with any arguments. -/
theorem useOpenGL_blocked_stays_off (qtNoOpenGL : Bool) (t : SeriesType) (domain : Nat)
    (before : List OpenGLCall) (after : List Bool) :
    (QAbstractSeries.setBlockOpenGL qtNoOpenGL
      (runCalls qtNoOpenGL (QAbstractSeries.new t domain) before).1 true).1.useOpenGL = false ∧
    (runCalls qtNoOpenGL
      (QAbstractSeries.setBlockOpenGL qtNoOpenGL
        (runCalls qtNoOpenGL (QAbstractSeries.new t domain) before).1 true).1
      (after.map OpenGLCall.setUseOpenGL)).1.useOpenGL = false ∧
    (runCalls qtNoOpenGL
      (QAbstractSeries.setBlockOpenGL qtNoOpenGL
        (runCalls qtNoOpenGL (QAbstractSeries.new t domain) before).1 true).1
      (after.map OpenGLCall.setUseOpenGL)).1.d_ptr.m_blockOpenGL = true := by
  have hreach := runCalls_consistent qtNoOpenGL before (QAbstractSeries.new t domain)
    (fun h => absurd h (by simp [QAbstractSeries.new, QAbstractSeriesPrivate.new,
      QAbstractSeries.useOpenGL]))
  obtain ⟨hoff, hblock⟩ := setBlockOpenGL_true_off qtNoOpenGL
    (runCalls qtNoOpenGL (QAbstractSeries.new t domain) before).1
    (fun h => ⟨(hreach h).1, (hreach h).2.1⟩)
  have key : ∀ (args : List Bool) (s : QAbstractSeries), s.d_ptr.m_blockOpenGL = true →
      s.d_ptr.m_useOpenGL = false →
      (runCalls qtNoOpenGL s (args.map OpenGLCall.setUseOpenGL)).1 = s := by
    intro args
    induction args with
    | nil => intro s _ _; rfl
    | cons a as ih =>
      intro s hb hu
      simp only [List.map_cons, runCalls, OpenGLCall.perform,
        setUseOpenGL_blocked qtNoOpenGL s a hb hu]
      exact ih s hb hu
  rw [key after _ hblock hoff]
  exact ⟨hoff, hoff, hblock⟩

/-- C7: a call `setUseOpenGL(enable)` emits `useOpenGLChanged` exactly once when
`useOpenGL()` after the call differs from its value before, emits nothing
otherwise, and changes no member other than `m_useOpenGL`. -/
theorem setUseOpenGL_signal_frame (qtNoOpenGL : Bool) (s : QAbstractSeries) (enable : Bool) :
    (QAbstractSeries.setUseOpenGL qtNoOpenGL s enable).2 =
      (if (QAbstractSeries.setUseOpenGL qtNoOpenGL s enable).1.useOpenGL ≠ s.useOpenGL then
        [Signal.useOpenGLChanged] else []) ∧
    (QAbstractSeries.setUseOpenGL qtNoOpenGL s enable).1 =
      { s with d_ptr := { s.d_ptr with
          m_useOpenGL := (QAbstractSeries.setUseOpenGL qtNoOpenGL s enable).1.useOpenGL } } := by
  rcases setUseOpenGL_cases qtNoOpenGL s enable with h | ⟨h, hne, _⟩
  · rw [h]
    simp [QAbstractSeries.useOpenGL]
  · rw [h]
    simp [QAbstractSeries.useOpenGL, hne]

/-! ## Construction, name and visibility -/

/-- C8: a freshly constructed series is visible, has opacity 1.0, does not use
OpenGL, belongs to no chart, has OpenGL blocking off and has no attached axes. -/
theorem new_defaults (t : SeriesType) (domain : Nat) :
    (QAbstractSeries.new t domain).isVisible = true ∧
    (QAbstractSeries.new t domain).opacity = 1 ∧
    (QAbstractSeries.new t domain).useOpenGL = false ∧
    (QAbstractSeries.new t domain).chart = none ∧
    (QAbstractSeries.new t domain).d_ptr.m_blockOpenGL = false ∧
    (QAbstractSeries.new t domain).attachedAxes = [] :=
  ⟨rfl, rfl, rfl, rfl, rfl, rfl⟩

/-- C9: after `setName(n)` the getter `name()` returns `n`; `nameChanged` is
emitted exactly once when `n` differs from the previous name and not at all when
it equals it, so that a repeated `setName(n)` changes nothing and emits nothing;
visibility, opacity, the OpenGL flag and the chart reference are unchanged. -/
theorem setName_contract (s : QAbstractSeries) (n : String) :
    (s.setName n).1.name = n ∧
    (s.setName n).2 = (if n ≠ s.name then [Signal.nameChanged] else []) ∧
    (s.setName n).1.setName n = ((s.setName n).1, []) ∧
    (s.setName n).1.isVisible = s.isVisible ∧
    (s.setName n).1.opacity = s.opacity ∧
    (s.setName n).1.useOpenGL = s.useOpenGL ∧
    (s.setName n).1.chart = s.chart ∧
    (s.setName n).1 = { s with d_ptr := { s.d_ptr with m_name := n } } := by
  by_cases h : n = s.d_ptr.m_name
  · subst h
    simp [QAbstractSeries.setName, QAbstractSeries.name]
  · simp [QAbstractSeries.setName, QAbstractSeries.name, QAbstractSeries.isVisible,
      QAbstractSeries.opacity, QAbstractSeries.useOpenGL, QAbstractSeries.chart, h]

/-- C10: `show()` and `hide()` are `setVisible(true)` and `setVisible(false)`;
afterwards `isVisible()` is true, respectively false, and `visibleChanged` is
emitted once exactly when the visibility changed, not at all when the series was
already in the requested state. -/
theorem show_hide_contract (s : QAbstractSeries) :
    s.show = s.setVisible true ∧
    s.hide = s.setVisible false ∧
    s.show.1.isVisible = true ∧
    s.hide.1.isVisible = false ∧
    s.show.2 = (if s.isVisible = true then [] else [Signal.visibleChanged]) ∧
    s.hide.2 = (if s.isVisible = false then [] else [Signal.visibleChanged]) ∧
    (∀ visible : Bool, (s.setVisible visible).2 =
      (if (s.setVisible visible).1.isVisible ≠ s.isVisible then [Signal.visibleChanged]
        else [])) := by
  cases h : s.d_ptr.m_visible <;>
    simp [QAbstractSeries.show, QAbstractSeries.hide, QAbstractSeries.setVisible,
      QAbstractSeries.isVisible, h]

/-! ## Opacity -/

/-- C11, as stated, fails: a fresh line series that receives `setOpacity(2.0)`
reports the opacity 2.0, which is outside the interval from 0.0 to 1.0. -/
theorem opacity_range_counterexample :
    (runSetOpacity (QAbstractSeries.new SeriesType.SeriesTypeLine 0) [2]).1.opacity = 2 ∧
    ¬ (0 ≤ (runSetOpacity (QAbstractSeries.new SeriesType.SeriesTypeLine 0) [2]).1.opacity ∧
      (runSetOpacity (QAbstractSeries.new SeriesType.SeriesTypeLine 0) [2]).1.opacity ≤ 1) := by
  have h : (runSetOpacity (QAbstractSeries.new SeriesType.SeriesTypeLine 0) [2]).1.opacity = 2 :=
    setOpacity_opacity _ 2
  rw [h]
  norm_num

/-- C11, amended: the opacity of a fresh series is 1.0; `setOpacity` stores its
argument without any range check, so `opacity()` returns that argument; hence in
every state reached from construction by `setOpacity` calls whose arguments all lie
between 0.0 and 1.0, `opacity()` lies between 0.0 and 1.0. -/
theorem opacity_range_of_arguments (t : SeriesType) (domain : Nat) (args : List ℚ)
    (hargs : ∀ x ∈ args, 0 ≤ x ∧ x ≤ 1) :
    (QAbstractSeries.new t domain).opacity = 1 ∧
    (∀ (s : QAbstractSeries) (x : ℚ), (s.setOpacity x).1.opacity = x) ∧
    0 ≤ (runSetOpacity (QAbstractSeries.new t domain) args).1.opacity ∧
    (runSetOpacity (QAbstractSeries.new t domain) args).1.opacity ≤ 1 := by
  have key : ∀ (xs : List ℚ) (s : QAbstractSeries), (∀ x ∈ xs, 0 ≤ x ∧ x ≤ 1) →
      (0 ≤ s.opacity ∧ s.opacity ≤ 1) →
      0 ≤ (runSetOpacity s xs).1.opacity ∧ (runSetOpacity s xs).1.opacity ≤ 1 := by
    intro xs
    induction xs with
    | nil => intro s _ hs; exact hs
    | cons x xs ih =>
      intro s hxs hs
      have hx := hxs x (List.mem_cons_self x xs)
      have hstep : 0 ≤ (s.setOpacity x).1.opacity ∧ (s.setOpacity x).1.opacity ≤ 1 := by
        rw [setOpacity_opacity]; exact hx
      exact ih (s.setOpacity x).1 (fun y hy => hxs y (List.mem_cons_of_mem x hy)) hstep
  have hnew : (QAbstractSeries.new t domain).opacity = 1 := rfl
  refine ⟨hnew, setOpacity_opacity, ?_⟩
  apply key args _ hargs
  rw [hnew]
  norm_num

/-- C11 amended, at a box plot series made half, then fully, then not at all opaque. -/
theorem opacity_range_of_arguments_witness :
    (∀ x ∈ [(1 / 2 : ℚ), 1, 0], 0 ≤ x ∧ x ≤ 1) ∧
    0 ≤ (runSetOpacity (QAbstractSeries.new SeriesType.SeriesTypeBoxPlot 0)
      [(1 / 2 : ℚ), 1, 0]).1.opacity ∧
    (runSetOpacity (QAbstractSeries.new SeriesType.SeriesTypeBoxPlot 0)
      [(1 / 2 : ℚ), 1, 0]).1.opacity ≤ 1 :=
  ⟨by norm_num,
   (opacity_range_of_arguments SeriesType.SeriesTypeBoxPlot 0 [(1 / 2 : ℚ), 1, 0]
      (by norm_num)).2.2⟩

/-! ## Tick layout: edges and spacing -/

/-- C12, as stated, fails. With eight ticks on the grid rectangle with top 20 and
height 457 the last point is 19.999999999999943, not the top edge 20, and the
gaps between points 5, 6 and 7 differ from each other. With three ticks on the
rectangle with top 10^16 and height 1 the points 0, 1 and 2 are all 10^16, so they
do not strictly decrease. -/
theorem calculateLayout_edges_spacing_counterexample :
    (∃ points : List Double,
      ChartDateTimeAxisY.calculateLayout false
          { tickCount := 8
            gridGeometry := { xp := Double.finite 0, yp := Double.finite 20
                              w := Double.finite 100, h := Double.finite 457 } } =
        Except.ok points ∧
      points[5]? = some (Double.finite (1324440292201033 / 2 ^ 43)) ∧
      points[6]? = some (Double.finite (187545269080649 / 2 ^ 41)) ∧
      points[7]? = some (Double.finite (351843720888319 / 2 ^ 44)) ∧
      (351843720888319 / 2 ^ 44 : ℚ) ≠ 20 ∧
      (1324440292201033 / 2 ^ 43 - 187545269080649 / 2 ^ 41 : ℚ) ≠
        187545269080649 / 2 ^ 41 - 351843720888319 / 2 ^ 44) ∧
    (∃ points : List Double,
      ChartDateTimeAxisY.calculateLayout false
          { tickCount := 3
            gridGeometry := { xp := Double.finite 0, yp := Double.finite (10 ^ 16)
                              w := Double.finite 100, h := Double.finite 1 } } =
        Except.ok points ∧
      Double.lt (Double.finite 0) (Double.finite 1) = true ∧
      points[1]? = some (Double.finite (10 ^ 16)) ∧
      points[2]? = some (Double.finite (10 ^ 16)) ∧
      Double.lt (Double.finite (10 ^ 16)) (Double.finite (10 ^ 16)) = false) := by
  constructor
  · have hdelta : Double.div (Double.finite 457) (Double.finite ((8 : ℚ) - 1)) =
        Double.finite (4594073727027493 / 2 ^ 46) := by
      simp only [Double.div]
      rw [if_neg (by norm_num)]
      exact layout8_deltaY
    have hentry : ∀ i : Nat, (i : Int) < 8 →
        (ChartDateTimeAxisY.fillPoints (Double.finite (4594073727027493 / 2 ^ 46))
          (Double.finite 477) (Int.toNat 8) 0
          (List.replicate (Int.toNat 8) (Double.finite 0)))[i]? =
        some (Double.add (Double.mul (Double.ofInt i)
          (Double.neg (Double.finite (4594073727027493 / 2 ^ 46)))) (Double.finite 477)) :=
      fun i hi => calculateLayout_entry 8 _ _ i hi
    refine ⟨_, calculateLayout_ok false 8 (by norm_num) (by norm_num) _, ?_, ?_, ?_,
      by norm_num, by norm_num⟩
    · simp only [QRectF.height, QRectF.bottom, Int.cast_ofNat]
      rw [hdelta, layout8_bottom, hentry 5 (by norm_num), layout8_point5]
    · simp only [QRectF.height, QRectF.bottom, Int.cast_ofNat]
      rw [hdelta, layout8_bottom, hentry 6 (by norm_num), layout8_point6]
    · simp only [QRectF.height, QRectF.bottom, Int.cast_ofNat]
      rw [hdelta, layout8_bottom, hentry 7 (by norm_num), layout8_point7]
  · have hdelta : Double.div (Double.finite 1) (Double.finite ((3 : ℚ) - 1)) =
        Double.finite (1 / 2 ^ 1) := by
      simp only [Double.div]
      rw [if_neg (by norm_num)]
      exact layout3_deltaY
    have hbottom : Double.add (Double.finite (10 ^ 16)) (Double.finite 1) =
        Double.finite 10000000000000000 := by
      simp only [Double.add]
      exact layout3_bottom
    have hentry : ∀ i : Nat, (i : Int) < 3 →
        (ChartDateTimeAxisY.fillPoints (Double.finite (1 / 2 ^ 1))
          (Double.finite 10000000000000000) (Int.toNat 3) 0
          (List.replicate (Int.toNat 3) (Double.finite 0)))[i]? =
        some (Double.add (Double.mul (Double.ofInt i)
          (Double.neg (Double.finite (1 / 2 ^ 1)))) (Double.finite 10000000000000000)) :=
      fun i hi => calculateLayout_entry 3 _ _ i hi
    refine ⟨_, calculateLayout_ok false 3 (by norm_num) (by norm_num) _, ?_, ?_, ?_, ?_⟩
    · simp [Double.lt]
    · simp only [QRectF.height, QRectF.bottom, Int.cast_ofNat]
      rw [hdelta, hbottom, hentry 1 (by norm_num), layout3_point1]
      norm_num
    · simp only [QRectF.height, QRectF.bottom, Int.cast_ofNat]
      rw [hdelta, hbottom, hentry 2 (by norm_num), layout3_point2]
      norm_num
    · simp [Double.lt]

/-- C12, amended: for a tick count `N` with `2 ≤ N` in the range of `int` and a
finite grid rectangle, `calculateLayout` returns `N` points that start at the bottom
edge. With a non-negative height and a finite bottom edge the points never
increase with the index. With height zero all `N` points equal the bottom edge.
The last point, when finite, lies within
`(|bottom| + 4 |height| + |top + height|) / 2^53 + (2 N + 2) / 2^1075` of the top
edge, and two consecutive finite points differ by `height / (N - 1)` up to twice
`(|bottom| + 4 |height|) / 2^53 + (2 N + 1) / 2^1075`. -/
theorem calculateLayout_edges_spacing (qtNoDebug : Bool) (N : Int) (hN : 2 ≤ N)
    (hInt : N < 2 ^ 31) (gridRect : QRectF) (hrect : gridRect.isFinite = true) :
    ∃ points : List Double,
      ChartDateTimeAxisY.calculateLayout qtNoDebug
          { tickCount := N, gridGeometry := gridRect } = Except.ok points ∧
      (points.length : Int) = N ∧
      points[0]? = some gridRect.bottom ∧
      (Double.le (Double.finite 0) gridRect.height = true →
        gridRect.bottom.isFinite = true →
        ∀ i j : Nat, i < j → (j : Int) < N →
          ∃ pi pj : Double, points[i]? = some pi ∧ points[j]? = some pj ∧
            Double.le pj pi = true) ∧
      (gridRect.height = Double.finite 0 →
        ∀ i : Nat, (i : Int) < N → points[i]? = some gridRect.bottom) ∧
      (∀ vy vh b p : ℚ, gridRect.top = Double.finite vy →
        gridRect.height = Double.finite vh → gridRect.bottom = Double.finite b →
        points[(N - 1).toNat]? = some (Double.finite p) →
        |p - vy| ≤ (|b| + 4 * |vh| + |vy + vh|) / 2 ^ 53 + (2 * (N : ℚ) + 2) / 2 ^ 1075) ∧
      (∀ (i : Nat) (vh b p q : ℚ), ((i + 1 : Nat) : Int) < N →
        gridRect.height = Double.finite vh → gridRect.bottom = Double.finite b →
        points[i]? = some (Double.finite p) → points[i + 1]? = some (Double.finite q) →
        |(p - q) - vh / ((N : ℚ) - 1)| ≤
          2 * ((|b| + 4 * |vh|) / 2 ^ 53 + (2 * (N : ℚ) + 1) / 2 ^ 1075)) := by
  have hq : (0 : ℚ) < (N : ℚ) - 1 := by
    have h2 : (2 : ℚ) ≤ (N : ℚ) := by exact_mod_cast hN
    linarith
  refine ⟨_, calculateLayout_ok qtNoDebug N hN hInt gridRect, ?_, ?_, ?_, ?_, ?_, ?_⟩
  · rw [fillPoints_length, List.length_replicate]
    omega
  · rw [calculateLayout_entry N _ _ 0 (by omega)]
    exact congrArg some (layout_point_zero N hN gridRect hrect)
  · intro hpos hbfin i j hij hj
    refine ⟨_, _, calculateLayout_entry N _ _ i (by omega), calculateLayout_entry N _ _ j hj, ?_⟩
    cases hh : gridRect.height with
    | nan => rw [hh] at hpos; simp [Double.le] at hpos
    | infinite s =>
      have h4 : gridRect.h.isFinite = true := by
        simp only [QRectF.isFinite, Bool.and_eq_true] at hrect
        exact hrect.2
      have h5 : gridRect.h = Double.infinite s := hh
      rw [h5] at h4
      simp [Double.isFinite] at h4
    | finite vh =>
      have h4 : gridRect.h.isFinite = true := by
        simp only [QRectF.isFinite, Bool.and_eq_true] at hrect
        exact hrect.2
      have h5 : gridRect.h = Double.finite vh := hh
      rw [h5] at h4
      simp only [Double.isFinite, decide_eq_true_eq] at h4
      rw [hh] at hpos
      simp only [Double.le, decide_eq_true_eq] at hpos
      cases hb : gridRect.bottom with
      | nan => rw [hb] at hbfin; simp [Double.isFinite] at hbfin
      | infinite s => rw [hb] at hbfin; simp [Double.isFinite] at hbfin
      | finite b => exact layout_point_antitone N hN hInt vh b h4 hpos i j hij.le hj
  · intro hzero i hi
    rw [calculateLayout_entry N _ _ i hi]
    exact congrArg some (layout_point_zero_height N hN hInt gridRect hrect hzero i hi)
  · intro vy vh b p hy hh hb hp
    have hlast : (((N - 1).toNat : Nat) : Int) < N := by omega
    rw [calculateLayout_entry N _ _ (N - 1).toNat hlast, hh, hb] at hp
    have herr := layout_point_error N hN hInt vh b p (N - 1).toNat hlast (Option.some.inj hp)
    have hcast : (((N - 1).toNat : Nat) : ℚ) = (N : ℚ) - 1 := by
      have h1 : (((N - 1).toNat : Nat) : Int) = N - 1 := Int.toNat_of_nonneg (by omega)
      have h2 : ((((N - 1).toNat : Nat) : Int) : ℚ) = ((N - 1 : Int) : ℚ) := by rw [h1]
      push_cast at h2
      exact h2
    rw [hcast, mul_div_assoc, mul_div_cancel₀ _ hq.ne'] at herr
    have hbq := bottom_eq_round gridRect vy vh b hy hh hb
    have hberr := roundQ_error (vy + vh)
    rw [← hbq] at hberr
    have htri : |p - vy| ≤ |p - (b - vh)| + |b - (vy + vh)| := by
      have := abs_add (p - (b - vh)) (b - (vy + vh))
      rw [show p - (b - vh) + (b - (vy + vh)) = p - vy by ring] at this
      exact this
    have e1 : (|b| + 4 * |vh| + |vy + vh|) / 2 ^ 53 =
        (|b| + 4 * |vh|) / 2 ^ 53 + |vy + vh| / 2 ^ 53 := by ring
    have e2 : (2 * (N : ℚ) + 2) / 2 ^ 1075 = (2 * (N : ℚ) + 1) / 2 ^ 1075 + 1 / 2 ^ 1075 := by
      ring
    rw [e1, e2]
    linarith
  · intro i vh b p q hi hh hb hp hq2
    rw [calculateLayout_entry N _ _ i (by omega), hh, hb] at hp
    rw [calculateLayout_entry N _ _ (i + 1) hi, hh, hb] at hq2
    have herr1 := layout_point_error N hN hInt vh b p i (by omega) (Option.some.inj hp)
    have herr2 := layout_point_error N hN hInt vh b q (i + 1) hi (Option.some.inj hq2)
    have hsplit : (p - q) - vh / ((N : ℚ) - 1) =
        (p - (b - (i : ℚ) * vh / ((N : ℚ) - 1))) -
          (q - (b - ((i + 1 : Nat) : ℚ) * vh / ((N : ℚ) - 1))) := by
      push_cast
      ring
    rw [hsplit]
    have := abs_sub (p - (b - (i : ℚ) * vh / ((N : ℚ) - 1)))
      (q - (b - ((i + 1 : Nat) : ℚ) * vh / ((N : ℚ) - 1)))
    linarith

/-- C12 amended, at five ticks on the rectangle with top 10 and height 100, whose
points start at the bottom edge 110 and never increase, and at three ticks on the
rectangle with top 10 and height 0, whose points all equal the bottom edge 10. -/
theorem calculateLayout_edges_spacing_witness :
    ((2 : Int) ≤ 5 ∧ (5 : Int) < 2 ^ 31 ∧
      (QRectF.mk (Double.finite 0) (Double.finite 10) (Double.finite 50)
        (Double.finite 100)).isFinite = true ∧
      Double.le (Double.finite 0) (QRectF.mk (Double.finite 0) (Double.finite 10)
        (Double.finite 50) (Double.finite 100)).height = true ∧
      (QRectF.mk (Double.finite 0) (Double.finite 10) (Double.finite 50)
        (Double.finite 100)).bottom.isFinite = true ∧
      ∃ points : List Double,
        ChartDateTimeAxisY.calculateLayout false
            { tickCount := 5
              gridGeometry := QRectF.mk (Double.finite 0) (Double.finite 10)
                (Double.finite 50) (Double.finite 100) } = Except.ok points ∧
        points[0]? = some (Double.finite 110) ∧
        ∀ i j : Nat, i < j → (j : Int) < 5 →
          ∃ pi pj : Double, points[i]? = some pi ∧ points[j]? = some pj ∧
            Double.le pj pi = true) ∧
    ((2 : Int) ≤ 3 ∧ (3 : Int) < 2 ^ 31 ∧
      (QRectF.mk (Double.finite 0) (Double.finite 10) (Double.finite 50)
        (Double.finite 0)).isFinite = true ∧
      (QRectF.mk (Double.finite 0) (Double.finite 10) (Double.finite 50)
        (Double.finite 0)).height = Double.finite 0 ∧
      ∃ points : List Double,
        ChartDateTimeAxisY.calculateLayout false
            { tickCount := 3
              gridGeometry := QRectF.mk (Double.finite 0) (Double.finite 10)
                (Double.finite 50) (Double.finite 0) } = Except.ok points ∧
        ∀ i : Nat, (i : Int) < 3 → points[i]? = some (Double.finite 10)) := by
  have hfin : ∀ n : Int, |n| < 2 ^ 53 → (Double.finite (n : ℚ)).isFinite = true :=
    Double.isFinite_intCast
  have h0 : (Double.finite 0).isFinite = true := by simpa using hfin 0 (by norm_num)
  have h10 : (Double.finite 10).isFinite = true := by simpa using hfin 10 (by norm_num)
  have h50 : (Double.finite 50).isFinite = true := by simpa using hfin 50 (by norm_num)
  have h100 : (Double.finite 100).isFinite = true := by simpa using hfin 100 (by norm_num)
  have h110 : (Double.finite 110).isFinite = true := by simpa using hfin 110 (by norm_num)
  have hrect : (QRectF.mk (Double.finite 0) (Double.finite 10) (Double.finite 50)
      (Double.finite 100)).isFinite = true := by
    simp only [QRectF.isFinite, h0, h10, h50, h100, Bool.and_self]
  have hrect0 : (QRectF.mk (Double.finite 0) (Double.finite 10) (Double.finite 50)
      (Double.finite 0)).isFinite = true := by
    simp only [QRectF.isFinite, h0, h10, h50, Bool.and_self]
  have hheight : Double.le (Double.finite 0) (QRectF.mk (Double.finite 0) (Double.finite 10)
      (Double.finite 50) (Double.finite 100)).height = true := by
    simp [QRectF.height, Double.le]
  have hbottom : (QRectF.mk (Double.finite 0) (Double.finite 10) (Double.finite 50)
      (Double.finite 100)).bottom = Double.finite 110 := layout5_bottom
  have hbottom0 : (QRectF.mk (Double.finite 0) (Double.finite 10) (Double.finite 50)
      (Double.finite 0)).bottom = Double.finite 10 := by
    have := Double.add_intCast 10 0 (by norm_num)
    norm_num at this
    exact this
  have hbfin : (QRectF.mk (Double.finite 0) (Double.finite 10) (Double.finite 50)
      (Double.finite 100)).bottom.isFinite = true := by rw [hbottom]; exact h110
  refine ⟨⟨by decide, by decide, hrect, hheight, hbfin, ?_⟩,
    ⟨by decide, by decide, hrect0, rfl, ?_⟩⟩
  · obtain ⟨points, hok, _, hstart, hmono, _, _, _⟩ :=
      calculateLayout_edges_spacing false 5 (by decide) (by decide) _ hrect
    rw [hbottom] at hstart
    exact ⟨points, hok, hstart, hmono hheight hbfin⟩
  · obtain ⟨points, hok, _, _, _, hzero, _, _⟩ :=
      calculateLayout_edges_spacing false 3 (by decide) (by decide) _ hrect0
    refine ⟨points, hok, ?_⟩
    intro i hi
    rw [hzero rfl i hi, hbottom0]

/-! ## Size hint -/

end QtCharts
